import Mathlib

/-!
Verification of the `raytracer` rendering core (a Rust Monte-Carlo path
tracer) against its natural-language specification.

Embedding conventions:

* `f64` values are idealized as exact rationals (`ℚ`): all arithmetic is
  exact, and floating-point literals are read at their decimal value.
  Interval endpoints, which the source routinely sets to `f64::INFINITY`
  and `f64::NEG_INFINITY`, live in the extended rationals
  `XQ := WithBot (WithTop ℚ)` (`⊥` is `-∞`, `⊤` is `+∞`); the finitely many
  mixed operations the source performs on endpoints are given their IEEE-754
  meaning case by case below.  No `NaN` value is modelled; the single spot
  where the source's data flow can produce a `NaN` (the slab test of
  `AxisAlignedBoundingBox::hit` when a direction component is zero) is
  embedded by tracing the IEEE semantics of that code path explicitly, see
  `slabStep`.
* `f64::sqrt` is modelled by `ratSqrt`, the exact square root on perfect
  squares and `0` elsewhere: a computable under-approximation
  (`ratSqrt q ^ 2 ≤ q` for `q ≥ 0`, `0 ≤ ratSqrt q`), which is all the
  theorems below rely on.
* Random draws (`random_double`, `Vec3::random_unit_vector`, the coin flip
  of `MixturePdf::generate`, …) are modelled as explicit oracle inputs
  (`Rand`), one bundle per integrator bounce.
* `panic!` is modelled by returning `none`.
-/

namespace Raytracer

/-- Extended rationals: the value space of `f64` interval endpoints.
`⊥` models `f64::NEG_INFINITY`, `⊤` models `f64::INFINITY`. -/
abbrev XQ := WithBot (WithTop ℚ)

/-- The finite extended rational `q`. -/
def XQ.fin (q : ℚ) : XQ := ((q : WithTop ℚ) : XQ)

/-- IEEE subtraction of a finite float from an extended float:
infinities absorb. -/
def XQ.subQ : XQ → ℚ → XQ
  | ⊥, _ => ⊥
  | some none, _ => ⊤
  | some (some a), q => XQ.fin (a - q)

/-- IEEE addition of a finite float to an extended float. -/
def XQ.addQ : XQ → ℚ → XQ
  | ⊥, _ => ⊥
  | some none, _ => ⊤
  | some (some a), q => XQ.fin (a + q)

/-- IEEE multiplication of an extended float by a finite float.  Every call
site below multiplies by a nonzero factor, so the IEEE `±∞ * 0 = NaN` case
cannot arise; it is mapped to `0` to keep the function total. -/
def XQ.mulQ : XQ → ℚ → XQ
  | ⊥, q => if 0 < q then ⊥ else if q < 0 then ⊤ else XQ.fin 0
  | some none, q => if 0 < q then ⊤ else if q < 0 then ⊥ else XQ.fin 0
  | some (some a), q => XQ.fin (a * q)

/-- IEEE subtraction of extended floats, used for `Interval::size`.
`∞ - ∞` (IEEE `NaN`) cannot arise at any call site (no interval ever has
`min = max = ±∞`); it is mapped to `0` to keep the function total. -/
def XQ.sub : XQ → XQ → XQ
  | ⊥, ⊥ => XQ.fin 0
  | ⊥, _ => ⊥
  | some none, some none => XQ.fin 0
  | some none, _ => ⊤
  | some (some _), ⊥ => ⊤
  | some (some _), some none => ⊥
  | some (some a), some (some b) => XQ.fin (a - b)

/-- Largest `k ≤ fuel` with `k * k ≤ n` (a structurally recursive integer
square root, so that concrete evaluation goes through the kernel). -/
def natSqrtGo : ℕ → ℕ → ℕ
  | 0, _ => 0
  | k + 1, n => if (k + 1) * (k + 1) ≤ n then k + 1 else natSqrtGo k n

/-- Exact square root of a rational: the true square root on perfect
squares, `0` elsewhere.  A computable under-approximation of `f64::sqrt`:
the guard below checks exactness, so `0 ≤ ratSqrt q` and
`ratSqrt q ^ 2 ≤ q` (for `q ≥ 0`), which is all any theorem below uses. -/
def ratSqrt (q : ℚ) : ℚ :=
  let sn := natSqrtGo q.num.toNat q.num.toNat
  let sd := natSqrtGo q.den q.den
  if 0 ≤ q ∧ sn * sn = q.num.toNat ∧ sd * sd = q.den then (sn : ℚ) / (sd : ℚ) else 0

/-- Embedding of `Vec3` (src/vec3.rs): a triple of `f64` components, used
both for points and free vectors (and, via the phantom-token alias, for
colors). -/
structure Vec3 where
  x : ℚ
  y : ℚ
  z : ℚ
deriving DecidableEq

/-- Embedding of the `Color` alias (src/color.rs): a `Vec3` of linear RGB
radiance (the phantom token only distinguishes the types in Rust). -/
abbrev Color := Vec3

instance : Add Vec3 := ⟨fun a b => ⟨a.x + b.x, a.y + b.y, a.z + b.z⟩⟩

instance : Sub Vec3 := ⟨fun a b => ⟨a.x - b.x, a.y - b.y, a.z - b.z⟩⟩

instance : Neg Vec3 := ⟨fun a => ⟨-a.x, -a.y, -a.z⟩⟩

instance : Mul Vec3 := ⟨fun a b => ⟨a.x * b.x, a.y * b.y, a.z * b.z⟩⟩

instance : HMul ℚ Vec3 Vec3 := ⟨fun q v => ⟨q * v.x, q * v.y, q * v.z⟩⟩

instance : HMul Vec3 ℚ Vec3 := ⟨fun v q => ⟨v.x * q, v.y * q, v.z * q⟩⟩

instance : HDiv Vec3 ℚ Vec3 := ⟨fun v q => ⟨v.x / q, v.y / q, v.z / q⟩⟩

instance : Zero Vec3 := ⟨⟨0, 0, 0⟩⟩

/-- `Vec3::splat`. -/
def Vec3.splat (q : ℚ) : Vec3 := ⟨q, q, q⟩

/-- `Vec3::length_squared`. -/
def Vec3.length_squared (v : Vec3) : ℚ := v.x * v.x + v.y * v.y + v.z * v.z

/-- `Vec3::dot`. -/
def Vec3.dot (a b : Vec3) : ℚ := a.x * b.x + a.y * b.y + a.z * b.z

/-- `Vec3::cross`. -/
def Vec3.cross (a b : Vec3) : Vec3 :=
  ⟨a.y * b.z - a.z * b.y, a.z * b.x - a.x * b.z, a.x * b.y - a.y * b.x⟩

/-- `Vec3::length`. -/
def Vec3.length (v : Vec3) : ℚ := ratSqrt v.length_squared

/-- `Vec3::unit_vector`. -/
def Vec3.unit_vector (v : Vec3) : Vec3 := v / v.length

/-- `Vec3::reflect`. -/
def Vec3.reflect (v normal : Vec3) : Vec3 := v - (2 * v.dot normal) * normal

/-- `Vec3::refract`. -/
def Vec3.refract (v normal : Vec3) (etai_over_etat : ℚ) : Vec3 :=
  let cos_theta := min ((-v).dot normal) 1
  let r_out_perp := etai_over_etat * (v + cos_theta * normal)
  let r_out_parallel := (-(ratSqrt |1 - r_out_perp.length_squared|)) * normal
  r_out_perp + r_out_parallel

/-- Embedding of `Ray` (src/ray.rs). -/
structure Ray where
  origin : Vec3
  direction : Vec3
deriving DecidableEq

/-- `Ray::at`. -/
def Ray.at (r : Ray) (t : ℚ) : Vec3 := r.origin + r.direction * t

/-- Embedding of `Interval` (src/interval.rs), endpoints in the extended
rationals so that `EMPTY` and `UNIVERSE` are representable. -/
structure Interval where
  min : XQ
  max : XQ
deriving DecidableEq

/-- `Interval::EMPTY` = `(f64::INFINITY, f64::NEG_INFINITY)`. -/
def Interval.EMPTY : Interval := ⟨⊤, ⊥⟩

/-- `Interval::UNIVERSE`. -/
def Interval.UNIVERSE : Interval := ⟨⊥, ⊤⟩

/-- `Interval::new`. -/
def Interval.new (min max : XQ) : Interval := ⟨min, max⟩

/-- `Interval::merge`: componentwise `f64::min` / `f64::max`, which on
non-`NaN` floats is the order min / max. -/
def Interval.merge (self other : Interval) : Interval :=
  ⟨Min.min self.min other.min, Max.max self.max other.max⟩

/-- `Interval::expand` (only ever called with the finite `delta = 1e-4`). -/
def Interval.expand (self : Interval) (delta : ℚ) : Interval :=
  let padding := delta / 2
  ⟨self.min.subQ padding, self.max.addQ padding⟩

/-- `Interval::size`. -/
def Interval.size (self : Interval) : XQ := self.max.sub self.min

/-- `Interval::contains` (`min <= x && x <= max`). -/
def Interval.containsQ (self : Interval) (x : ℚ) : Prop :=
  self.min ≤ XQ.fin x ∧ XQ.fin x ≤ self.max

/-- `Interval::surrounds` (`min < x && x < max`). -/
def Interval.surrounds (self : Interval) (x : ℚ) : Prop :=
  self.min < XQ.fin x ∧ XQ.fin x < self.max

instance (i : Interval) (x : ℚ) : Decidable (i.containsQ x) := by
  unfold Interval.containsQ; infer_instance

instance (i : Interval) (x : ℚ) : Decidable (i.surrounds x) := by
  unfold Interval.surrounds; infer_instance

/-- Embedding of `AxisAlignedBoundingBox` (src/aabb.rs). -/
structure AxisAlignedBoundingBox where
  x : Interval
  y : Interval
  z : Interval
deriving DecidableEq

namespace AxisAlignedBoundingBox

/-- `AxisAlignedBoundingBox::EMPTY`. -/
def EMPTY : AxisAlignedBoundingBox := ⟨Interval.EMPTY, Interval.EMPTY, Interval.EMPTY⟩

/-- `pad_to_minimums`: any axis of size below `1e-4` is expanded by `1e-4`. -/
def pad_to_minimums (b : AxisAlignedBoundingBox) : AxisAlignedBoundingBox :=
  let delta : ℚ := 1/10000
  let x := if b.x.size < XQ.fin delta then b.x.expand delta else b.x
  let y := if b.y.size < XQ.fin delta then b.y.expand delta else b.y
  let z := if b.z.size < XQ.fin delta then b.z.expand delta else b.z
  ⟨x, y, z⟩

/-- `AxisAlignedBoundingBox::new`. -/
def new (x y z : Interval) : AxisAlignedBoundingBox :=
  pad_to_minimums ⟨x, y, z⟩

/-- `AxisAlignedBoundingBox::from_points`. -/
def from_points (a b : Vec3) : AxisAlignedBoundingBox :=
  let mk : ℚ → ℚ → Interval := fun a b =>
    if a ≤ b then Interval.new (XQ.fin a) (XQ.fin b) else Interval.new (XQ.fin b) (XQ.fin a)
  new (mk a.x b.x) (mk a.y b.y) (mk a.z b.z)

/-- `AxisAlignedBoundingBox::merge`. -/
def merge (a b : AxisAlignedBoundingBox) : AxisAlignedBoundingBox :=
  ⟨a.x.merge b.x, a.y.merge b.y, a.z.merge b.z⟩

/-- `AxisAlignedBoundingBox::longest_axis`: `max_by` over the enumerated
axis sizes with `f64::total_cmp` (which on the `NaN`-free, `-0`-free values
of this model is the linear order); Rust's `Iterator::max_by` keeps the
LAST of equally-maximal elements. -/
def longest_axis (b : AxisAlignedBoundingBox) : ℕ :=
  let sx := b.x.size
  let sy := b.y.size
  let sz := b.z.size
  let m1 : ℕ × XQ := if sy < sx then (0, sx) else (1, sy)
  if sz < m1.2 then m1.1 else 2

/-- One axis of the slab test of `AxisAlignedBoundingBox::hit`: narrows the
running parameter interval and fails (`none`) as soon as it is empty.

The `d = 0` branch spells out the IEEE data flow of the source at a zero
direction component, where `adinv = 1.0 / 0.0 = ±∞` (sign of the zero):
with the origin strictly inside the slab the candidate interval is
`[-∞, +∞]` and nothing is narrowed; with the origin outside, or exactly on
a slab plane (where `0 * ∞` produces a `NaN` which `f64::min`/`f64::max`
then ignore), the running interval collapses to `max <= min` and the test
fails.  Both signs of zero give the same outcome. -/
def slabStep (ax : Interval) (o d : ℚ) (t : Interval) : Option Interval :=
  if d = 0 then
    if ax.min < XQ.fin o ∧ XQ.fin o < ax.max then
      if t.max ≤ t.min then none else some t
    else none
  else
    let adinv := 1 / d
    let t0 := (ax.min.subQ o).mulQ adinv
    let t1 := (ax.max.subQ o).mulQ adinv
    let lo := Min.min t0 t1
    let hi := Max.max t0 t1
    let tmin := if t.min < lo then lo else t.min
    let tmax := if hi < t.max then hi else t.max
    if tmax ≤ tmin then none else some ⟨tmin, tmax⟩

/-- `AxisAlignedBoundingBox::hit`: the three slab steps in axis order
x, y, z, with early exit. -/
def hit (b : AxisAlignedBoundingBox) (r : Ray) (ray_t : Interval) : Bool :=
  ((((slabStep b.x r.origin.x r.direction.x ray_t).bind
      (slabStep b.y r.origin.y r.direction.y)).bind
      (slabStep b.z r.origin.z r.direction.z))).isSome

end AxisAlignedBoundingBox

/-- Embedding of `Onb` (src/onb.rs): an orthonormal-basis triple
`axis = [u, v, w]`. -/
structure Onb where
  u : Vec3
  v : Vec3
  w : Vec3
deriving DecidableEq

/-- `Onb::new`. -/
def Onb.new (n : Vec3) : Onb :=
  let w := n.unit_vector
  let a : Vec3 := if 9/10 < |n.x| then ⟨0, 1, 0⟩ else ⟨1, 0, 0⟩
  let v := (n.cross a).unit_vector
  let u := n.cross v
  ⟨u, v, w⟩

/-- `Onb::transform`. -/
def Onb.transform (b : Onb) (vec : Vec3) : Vec3 :=
  (vec.x * b.u) + (vec.y * b.v) + (vec.z * b.w)

/-- Embedding of the closed material variant set `AnyMaterial`
(src/material.rs).  Each variant carries its constant parameters; `Metal`
is built through `Metal::new`, which clamps the fuzziness (`metalNew`). -/
inductive AnyMaterial where
  | lambertian (albedo : Color)
  | metal (albedo : Color) (fuzziness : ℚ)
  | dielectric (refraction_index : ℚ)
  | diffuseLight (color : Color)
  | dummy
deriving DecidableEq

/-- `Metal::new`: clamps the fuzziness to at most `1`. -/
def metalNew (albedo : Color) (fuzziness : ℚ) : AnyMaterial :=
  .metal albedo (min fuzziness 1)

/-- Embedding of `HitRecord` (src/object.rs). -/
structure HitRecord where
  point : Vec3
  normal : Vec3
  t : ℚ
  front_face : Bool
  material : AnyMaterial
deriving DecidableEq

/-- `HitRecord::new`: evaluates the outward normal at the hit point and
flips it so the stored normal opposes the incoming ray; the sidedness is
kept as `front_face`. -/
def HitRecord.new (r : Ray) (t : ℚ) (outward_normal : Vec3 → Vec3)
    (material : AnyMaterial) : HitRecord :=
  let point := r.at t
  let n := outward_normal point
  let front_face := decide (r.direction.dot n ≤ 0)
  let normal := if front_face then n else -n
  ⟨point, normal, t, front_face, material⟩

/-- Embedding of `Sphere` (src/object.rs).  The source caches the bounding
box computed by `Sphere::new` in a field; since nothing ever writes it
after construction, it is modelled as the derived function
`Sphere.bounding_box`. -/
structure Sphere where
  center : Vec3
  radius : ℚ
  material : AnyMaterial
deriving DecidableEq

/-- The bounding box `Sphere::new` precomputes and `Sphere::bounding_box`
returns. -/
def Sphere.bounding_box (s : Sphere) : AxisAlignedBoundingBox :=
  AxisAlignedBoundingBox.from_points (s.center - Vec3.splat s.radius)
    (s.center + Vec3.splat s.radius)

/-- `Sphere::hit` (`impl Object for Sphere`): closed-form quadratic with
root selection. -/
def Sphere.hit (s : Sphere) (r : Ray) (ray_t : Interval) : Option HitRecord :=
  let oc := s.center - r.origin
  let a := r.direction.length_squared
  let h := r.direction.dot oc
  let c := oc.length_squared - s.radius * s.radius
  let discriminant := h * h - a * c
  if discriminant < 0 then none
  else
    let sqrtd := ratSqrt discriminant
    let root1 := (h - sqrtd) / a
    let root2 := (h + sqrtd) / a
    let root? : Option ℚ :=
      if ray_t.surrounds root1 then some root1
      else if ray_t.surrounds root2 then some root2
      else none
    root?.map fun root =>
      HitRecord.new r root (fun point => (point - s.center) / s.radius) s.material

/-- The loop body of `ObjectList::hit` over a sphere list: `closest` is the
running upper bound, `best` the best record so far. -/
def hitLoop (r : Ray) (tmin : XQ) : List Sphere → XQ → Option HitRecord → Option HitRecord
  | [], _, best => best
  | s :: rest, closest, best =>
    match s.hit r (Interval.new tmin closest) with
    | some rec => hitLoop r tmin rest (XQ.fin rec.t) (some rec)
    | none => hitLoop r tmin rest closest best

/-- `ObjectList::hit` for a list of spheres: linear scan keeping the
closest hit. -/
def ObjectList.hit (objects : List Sphere) (r : Ray) (ray_t : Interval) : Option HitRecord :=
  hitLoop r ray_t.min objects ray_t.max none

/-- The binary BVH tree shape (src/bvh.rs): a `BvhNode` owns two children,
each either a leaf object or another node, plus a precomputed box. -/
inductive BvhTree where
  | obj (s : Sphere)
  | node (bbox : AxisAlignedBoundingBox) (left right : BvhTree)
deriving DecidableEq

/-- The objects contained in a BVH subtree, in left-to-right order. -/
def BvhTree.flatten : BvhTree → List Sphere
  | .obj s => [s]
  | .node _ l r => l.flatten ++ r.flatten

/-- The comparator key of `BvhNode::from_objects_mut`'s sort: the minimum
coordinate of the object's bounding box along the chosen axis. -/
def sortKey (axis : ℕ) (s : Sphere) : XQ :=
  if axis = 0 then s.bounding_box.x.min
  else if axis = 1 then s.bounding_box.y.min
  else s.bounding_box.z.min

/-- Stable insertion of a sphere into a list sorted by `sortKey axis`,
placing it after existing equal keys. -/
def sortInsert (axis : ℕ) (s : Sphere) : List Sphere → List Sphere
  | [] => [s]
  | y :: ys => if sortKey axis s < sortKey axis y then s :: y :: ys
               else y :: sortInsert axis s ys

/-- Stable sort by the box-minimum along `axis`.  The source uses
`Vec::sort_by` (a stable sort) with `f64::total_cmp`, which on the
`NaN`-free values of this model is the linear order on `XQ`; any stable
sort computes the same list, here an insertion sort. -/
def sortByAxis (axis : ℕ) : List Sphere → List Sphere
  | [] => []
  | s :: rest => sortInsert axis s (sortByAxis axis rest)

/-- The merged bounding box `BvhNode::from_objects_mut` folds up before
splitting. -/
def mergedBox (objs : List Sphere) : AxisAlignedBoundingBox :=
  objs.foldl (fun b s => b.merge s.bounding_box) AxisAlignedBoundingBox.EMPTY

/-- Fuel-indexed body of `BvhNode::from_objects_mut`.  The source recurses
on the two halves of the sorted list; the fuel (any bound on the recursion
depth, `length` suffices) makes the recursion structural.  `none` models
the `panic!` on an empty object list (fuel exhaustion cannot occur when
`objs.length ≤ fuel`, see `bvhGo_fuel_irrelevant`). -/
def bvhGo : ℕ → List Sphere → Option BvhTree
  | 0, _ => none
  | _ + 1, [] => none
  | _ + 1, [s] => some (.node (mergedBox [s]) (.obj s) (.obj s))
  | _ + 1, [s1, s2] => some (.node (mergedBox [s1, s2]) (.obj s1) (.obj s2))
  | fuel + 1, objs@(_ :: _ :: _ :: _) =>
    let bbox := mergedBox objs
    let axis := bbox.longest_axis
    let sorted := sortByAxis axis objs
    let mid := sorted.length / 2
    match bvhGo fuel (sorted.take mid), bvhGo fuel (sorted.drop mid) with
    | some l, some r => some (.node bbox l r)
    | _, _ => none

/-- `BvhNode::from_objects_mut` for a list of spheres; `none` models the
panic on the empty list. -/
def BvhNode.from_objects (objs : List Sphere) : Option BvhTree :=
  bvhGo objs.length objs

/-- `BvhNode::hit` / leaf dispatch (`impl Object for BvhNode`): box test,
left child first, right child with the upper bound tightened to the left
hit's `t`, preferring the right result. -/
def BvhTree.hit : BvhTree → Ray → Interval → Option HitRecord
  | .obj s, r, ray_t => s.hit r ray_t
  | .node bbox l rt, r, ray_t =>
    if bbox.hit r ray_t then
      let lrec := l.hit r ray_t
      let ray_t2 : Interval :=
        match lrec with
        | some rec => ⟨ray_t.min, XQ.fin rec.t⟩
        | none => ray_t
      (rt.hit r ray_t2).or lrec
    else none

/-- The exact rational value of the `f64` constant `std::f64::consts::PI`. -/
def PI64 : ℚ := 884279719003555 / 281474976710656

/-- The exact rational value of the `f64` constant `std::f64::consts::FRAC_1_PI`. -/
def FRAC_1_PI64 : ℚ := 5734161139222659 / 18014398509481984

/-- The exact rational value of the `f64` constant `std::f64::consts::TAU`
(exactly `2 * PI64`). -/
def TAU64 : ℚ := 884279719003555 / 140737488355328

/-- One bounce's worth of random draws, modelled as oracle inputs:
the raw uniform doubles are `scatterDouble`, `r1`, `r2`; `scatterUnit` is
the output of `Vec3::random_unit_vector`; `coin` is `MixturePdf::generate`'s
`random()`; `choose` selects the element in `ObjectList::random`;
`cosPhi`/`sinPhi` are the values of `phi.cos()`/`phi.sin()` for the angle
`phi` derived from `r1` inside the active direction generator. -/
structure Rand where
  scatterUnit : Vec3
  scatterDouble : ℚ
  coin : Bool
  choose : ℕ
  r1 : ℚ
  r2 : ℚ
  cosPhi : ℚ
  sinPhi : ℚ
deriving DecidableEq

/-- The closed PDF variant set a `ScatterRecord` can carry in its
`Box<dyn Pdf>` field (src/material.rs only ever stores `SpherePdf` or
`CosinePdf` there). -/
inductive PdfKind where
  | spherePdf
  | cosinePdf (basis : Onb)
deriving DecidableEq

/-- `Vec3::random_cosine_direction`, with the trigonometric parts of the
draw supplied by the oracle. -/
def randomCosineDirection (rnd : Rand) : Vec3 :=
  ⟨rnd.cosPhi * ratSqrt rnd.r2, rnd.sinPhi * ratSqrt rnd.r2, ratSqrt (1 - rnd.r2)⟩

/-- `Sphere::random_to_sphere`, with the trigonometric parts of the draw
supplied by the oracle.  (The source's IEEE `sqrt` of a negative argument
would give `NaN`; `ratSqrt` gives `0`.  No theorem below depends on the
generated direction.) -/
def randomToSphere (radius distance_squared : ℚ) (rnd : Rand) : Vec3 :=
  let z := 1 + rnd.r2 * (ratSqrt (1 - radius * radius / distance_squared) - 1)
  ⟨rnd.cosPhi - ratSqrt (1 - z * z), rnd.sinPhi * ratSqrt (1 - z * z), z⟩

/-- `Pdf::value` for the two kinds a scatter record can carry. -/
def PdfKind.value (k : PdfKind) (direction : Vec3) : ℚ :=
  match k with
  | .spherePdf => 1 / (4 * PI64)
  | .cosinePdf basis =>
    let cosine_theta := (direction.unit_vector).dot basis.w
    max 0 (cosine_theta * FRAC_1_PI64)

/-- `Pdf::generate` for the two kinds a scatter record can carry. -/
def PdfKind.generate (k : PdfKind) (rnd : Rand) : Vec3 :=
  match k with
  | .spherePdf => rnd.scatterUnit
  | .cosinePdf basis => basis.transform (randomCosineDirection rnd)

/-- Embedding of `ScatterRecord` (src/material.rs). -/
structure ScatterRecord where
  attenuation : Color
  pdf : PdfKind
  skip_pdf : Option Ray
deriving DecidableEq

/-- `Dielectric::reflectance` (Schlick). -/
def reflectance (refraction_index cosine : ℚ) : ℚ :=
  let r0 := (1 - refraction_index) / (1 + refraction_index)
  let r0 := r0 * r0
  r0 + (1 - r0) * (1 - cosine) ^ (5 : ℕ)

/-- `Material::emitted` dispatched over `AnyMaterial`: only `DiffuseLight`
overrides the zero default, and only on the front face. -/
def AnyMaterial.emitted (m : AnyMaterial) (_r_in : Ray) (rec : HitRecord) (_p : Vec3) : Color :=
  match m with
  | .diffuseLight c => if !rec.front_face then Vec3.splat 0 else c
  | _ => ⟨0, 0, 0⟩

/-- `Material::scatter` dispatched over `AnyMaterial`, with the bounce's
random draws passed explicitly. -/
def AnyMaterial.scatter (m : AnyMaterial) (r_in : Ray) (rec : HitRecord) (rnd : Rand) :
    Option ScatterRecord :=
  match m with
  | .lambertian albedo =>
    some ⟨albedo, .cosinePdf (Onb.new rec.normal), none⟩
  | .metal albedo fuzziness =>
    let reflected := r_in.direction.reflect rec.normal
    let reflected := reflected.unit_vector + fuzziness * rnd.scatterUnit
    if 0 < reflected.dot rec.normal then
      some ⟨albedo, .spherePdf, some ⟨rec.point, reflected⟩⟩
    else none
  | .dielectric refraction_index =>
    let ri := if rec.front_face then refraction_index⁻¹ else refraction_index
    let unit_direction := r_in.direction.unit_vector
    let cos_theta := min ((-unit_direction).dot rec.normal) 1
    let sin_theta := ratSqrt (1 - cos_theta * cos_theta)
    let cannot_refract := 1 < ri * sin_theta
    let direction :=
      if cannot_refract ∨ rnd.scatterDouble < reflectance ri cos_theta then
        unit_direction.reflect rec.normal
      else unit_direction.refract rec.normal ri
    some ⟨Vec3.splat 1, .spherePdf, some ⟨rec.point, direction⟩⟩
  | .diffuseLight _ => none
  | .dummy => none

/-- `Material::scattering_pdf` dispatched over `AnyMaterial`: only
`Lambertian` overrides the zero default. -/
def AnyMaterial.scattering_pdf (m : AnyMaterial) (_r_in : Ray) (rec : HitRecord)
    (scattered : Ray) : ℚ :=
  match m with
  | .lambertian _ =>
    let cos_theta := rec.normal.dot (scattered.direction.unit_vector)
    max cos_theta 0 * FRAC_1_PI64
  | _ => 0

/-- `Sphere::pdf_value`. -/
def Sphere.pdf_value (s : Sphere) (origin direction : Vec3) : ℚ :=
  match s.hit ⟨origin, direction⟩ (Interval.new (XQ.fin (1/1000)) ⊤) with
  | none => 0
  | some _ =>
    let cos_theta_max :=
      ratSqrt (1 - s.radius * s.radius / (s.center - origin).length_squared)
    let solid_angle := TAU64 * (1 - cos_theta_max)
    solid_angle⁻¹

/-- `Sphere::random`. -/
def Sphere.random (s : Sphere) (origin : Vec3) (rnd : Rand) : Vec3 :=
  let direction := s.center - origin
  let distance_squared := direction.length_squared
  let uvw := Onb.new direction
  uvw.transform (randomToSphere s.radius distance_squared rnd)

/-- `ObjectList::pdf_value` over a sphere light list: the equally-weighted
average of the members' values. -/
def ObjectList.pdf_value (objects : List Sphere) (origin direction : Vec3) : ℚ :=
  let weight := ((objects.length : ℚ))⁻¹
  (objects.map fun o => weight * o.pdf_value origin direction).sum

/-- `ObjectList::random` over a sphere light list: a uniformly chosen
member's `random` (the source `unwrap`s and panics on an empty list; that
case is modelled as the zero vector and is unreached in every theorem
below). -/
def ObjectList.random (objects : List Sphere) (origin : Vec3) (rnd : Rand) : Vec3 :=
  match objects.get? (rnd.choose % objects.length) with
  | some s => s.random origin rnd
  | none => Vec3.splat 0

/-- `MixturePdf::value` for the mixture `ray_color` builds: an `ObjectPdf`
toward the light list mixed 50/50 with the scatter record's own PDF. -/
def mixValue (lights : List Sphere) (origin : Vec3) (k : PdfKind) (direction : Vec3) : ℚ :=
  1/2 * ObjectList.pdf_value lights origin direction + 1/2 * k.value direction

/-- `MixturePdf::generate` for the mixture `ray_color` builds. -/
def mixGenerate (lights : List Sphere) (origin : Vec3) (k : PdfKind) (rnd : Rand) : Vec3 :=
  if rnd.coin then ObjectList.random lights origin rnd else k.generate rnd

/-- Embedding of `Camera` (src/camera.rs) restricted to the single field
`Camera::ray_color` reads (`background`); the ray-generation fields play no
part in any claim about the integrator. -/
structure Camera where
  background : Color
deriving DecidableEq

/-- `Camera::ray_color`: the recursive path-tracing estimator.  `depth`
counts remaining bounces; `stream n` supplies the random draws of the
`n`-th bounce, and recursive calls consume the shifted stream.  The
source's `assert_finite` calls are vacuous in exact arithmetic. -/
def Camera.ray_color (cam : Camera) (world lights : List Sphere) :
    Ray → ℕ → (ℕ → Rand) → Color
  | _, 0, _ => ⟨0, 0, 0⟩
  | r, depth + 1, stream =>
    match ObjectList.hit world r (Interval.new (XQ.fin (1/1000)) ⊤) with
    | none => cam.background
    | some record =>
      let color_from_emission := record.material.emitted r record record.point
      match record.material.scatter r record (stream 0) with
      | none => color_from_emission
      | some srec =>
        match srec.skip_pdf with
        | some ray =>
          srec.attenuation * cam.ray_color world lights ray depth (fun n => stream (n + 1))
        | none =>
          let scattered : Ray := ⟨record.point, mixGenerate lights record.point srec.pdf (stream 0)⟩
          let pdf_value := mixValue lights record.point srec.pdf scattered.direction
          let scattering_pdf := record.material.scattering_pdf r record scattered
          let sample_color := cam.ray_color world lights scattered depth (fun n => stream (n + 1))
          let color_from_scatter := srec.attenuation * scattering_pdf * sample_color / pdf_value
          color_from_emission + color_from_scatter

/-- The size of the `n`-th axis of a box, in the fixed order x, y, z (used
to state what `longest_axis` selects). -/
def AxisAlignedBoundingBox.axisSize (b : AxisAlignedBoundingBox) (n : ℕ) : XQ :=
  if n = 0 then b.x.size else if n = 1 then b.y.size else b.z.size

/-- The hit parameter a sphere reports inside a search interval, if any. -/
def hitT (s : Sphere) (r : Ray) (i : Interval) : Option ℚ := (s.hit r i).map (·.t)

/-- Interval containment (`sub` lies inside `sup`). -/
def Interval.inside (sub sup : Interval) : Prop :=
  sup.min ≤ sub.min ∧ sub.max ≤ sup.max

/-- Box containment: every axis of `inner` lies inside the same axis of
`outer`. -/
def AxisAlignedBoundingBox.covers (outer inner : AxisAlignedBoundingBox) : Prop :=
  inner.x.inside outer.x ∧ inner.y.inside outer.y ∧ inner.z.inside outer.z

/-- Well-formedness of a BVH tree: every interior node's cached box covers
the bounding box of each sphere in its subtree. -/
def BvhTree.Wf : BvhTree → Prop
  | .obj _ => True
  | .node bbox l r =>
    (∀ s ∈ l.flatten ++ r.flatten, bbox.covers s.bounding_box) ∧ l.Wf ∧ r.Wf

/-- The quadratic coefficient `a` of `Sphere::hit`. -/
def sphereA (r : Ray) : ℚ := r.direction.length_squared

/-- The half-b coefficient `h` of `Sphere::hit`. -/
def sphereH (s : Sphere) (r : Ray) : ℚ := r.direction.dot (s.center - r.origin)

/-- The constant coefficient `c` of `Sphere::hit`. -/
def sphereCc (s : Sphere) (r : Ray) : ℚ :=
  (s.center - r.origin).length_squared - s.radius * s.radius

/-- The discriminant of `Sphere::hit`. -/
def sphereDisc (s : Sphere) (r : Ray) : ℚ :=
  sphereH s r * sphereH s r - sphereA r * sphereCc s r

/-- The smaller candidate root `(h - sqrtd) / a` of `Sphere::hit`. -/
def sphereRoot1 (s : Sphere) (r : Ray) : ℚ :=
  (sphereH s r - ratSqrt (sphereDisc s r)) / sphereA r

/-- The larger candidate root `(h + sqrtd) / a` of `Sphere::hit`. -/
def sphereRoot2 (s : Sphere) (r : Ray) : ℚ :=
  (sphereH s r + ratSqrt (sphereDisc s r)) / sphereA r

/-- The hit record `Sphere::hit` builds for a selected root. -/
def sphereRecord (s : Sphere) (r : Ray) (root : ℚ) : HitRecord :=
  HitRecord.new r root (fun point => (point - s.center) / s.radius) s.material

/-- The smaller slab-entry parameter `t0.min(t1)` of one axis of the slab
test (see `slabStep`). -/
def slabLo (ax : Interval) (o d : ℚ) : XQ :=
  Min.min ((ax.min.subQ o).mulQ (1 / d)) ((ax.max.subQ o).mulQ (1 / d))

/-- The larger slab-exit parameter `t0.max(t1)` of one axis of the slab
test (see `slabStep`). -/
def slabHi (ax : Interval) (o d : ℚ) : XQ :=
  Max.max ((ax.min.subQ o).mulQ (1 / d)) ((ax.max.subQ o).mulQ (1 / d))

/-- A concrete three-sphere scene: two spheres of radius 3 externally
tangent at the origin (their interiors are disjoint — the center distance
equals the sum of the radii) with different albedos, plus a distant third
sphere.  Listed in the order B, A, C, while the BVH sort (by box minimum
along the longest axis) orders them A, B, C. -/
def cexScene : List Sphere :=
  [⟨⟨1, 2, 2⟩, 3, .lambertian ⟨0, 1, 0⟩⟩,
   ⟨⟨-1, -2, -2⟩, 3, .lambertian ⟨1, 0, 0⟩⟩,
   ⟨⟨100, 100, 100⟩, 1, .lambertian ⟨0, 0, 1⟩⟩]

/-- A ray through the tangency point of the two tangent spheres of
`cexScene`, tangent to both (both report the same double root `t = 1`);
all direction components are nonzero. -/
def cexRay : Ray := ⟨⟨-2, -1, 2⟩, ⟨2, 1, -2⟩⟩

/-- The search interval used with `cexScene` (the integrator's standard
`(0.001, +∞)`). -/
def cexI : Interval := ⟨XQ.fin (1/1000), ⊤⟩

/-- The BVH built from `cexScene`: the root sorts on the z axis and splits
off the red sphere (listed second but sorted first); its left child is the
shared-leaf node that `from_objects_mut` builds for a single object. -/
def cexTree : BvhTree :=
  .node ⟨⟨XQ.fin (-4), XQ.fin 101⟩, ⟨XQ.fin (-5), XQ.fin 101⟩, ⟨XQ.fin (-5), XQ.fin 101⟩⟩
    (.node ⟨⟨XQ.fin (-4), XQ.fin 2⟩, ⟨XQ.fin (-5), XQ.fin 1⟩, ⟨XQ.fin (-5), XQ.fin 1⟩⟩
      (.obj ⟨⟨-1, -2, -2⟩, 3, .lambertian ⟨1, 0, 0⟩⟩)
      (.obj ⟨⟨-1, -2, -2⟩, 3, .lambertian ⟨1, 0, 0⟩⟩))
    (.node ⟨⟨XQ.fin (-2), XQ.fin 101⟩, ⟨XQ.fin (-1), XQ.fin 101⟩, ⟨XQ.fin (-1), XQ.fin 101⟩⟩
      (.obj ⟨⟨1, 2, 2⟩, 3, .lambertian ⟨0, 1, 0⟩⟩)
      (.obj ⟨⟨100, 100, 100⟩, 1, .lambertian ⟨0, 0, 1⟩⟩))

/-- A well-separated three-sphere scene (used as a concrete instance of
the BVH/list agreement): the first sphere is hit by `witRay`, the other
two are far away and missed. -/
def witScene : List Sphere :=
  [⟨⟨2, 1, -2⟩, 1, .lambertian ⟨1, 1, 1⟩⟩,
   ⟨⟨7, 7, 7⟩, 1, .lambertian ⟨1, 0, 1⟩⟩,
   ⟨⟨-7, -7, 5⟩, 1, .lambertian ⟨0, 1, 1⟩⟩]

/-- A ray from the origin towards the first sphere of `witScene`; all
direction components are nonzero. -/
def witRay : Ray := ⟨⟨0, 0, 0⟩, ⟨2, 1, -2⟩⟩

/-- The search interval used with `witScene`. -/
def witI : Interval := ⟨XQ.fin (1/1000), ⊤⟩

/-- The BVH built from `witScene`: the root sorts on the y axis, splitting
off the third sphere. -/
def witTree : BvhTree :=
  .node ⟨⟨XQ.fin (-8), XQ.fin 8⟩, ⟨XQ.fin (-8), XQ.fin 8⟩, ⟨XQ.fin (-3), XQ.fin 8⟩⟩
    (.node ⟨⟨XQ.fin (-8), XQ.fin (-6)⟩, ⟨XQ.fin (-8), XQ.fin (-6)⟩, ⟨XQ.fin 4, XQ.fin 6⟩⟩
      (.obj ⟨⟨-7, -7, 5⟩, 1, .lambertian ⟨0, 1, 1⟩⟩)
      (.obj ⟨⟨-7, -7, 5⟩, 1, .lambertian ⟨0, 1, 1⟩⟩))
    (.node ⟨⟨XQ.fin 1, XQ.fin 8⟩, ⟨XQ.fin 0, XQ.fin 8⟩, ⟨XQ.fin (-3), XQ.fin 8⟩⟩
      (.obj ⟨⟨2, 1, -2⟩, 1, .lambertian ⟨1, 1, 1⟩⟩)
      (.obj ⟨⟨7, 7, 7⟩, 1, .lambertian ⟨1, 0, 1⟩⟩))

/-! ### Componentwise lemmas for the vector operations -/

theorem Vec3.add_def (a b : Vec3) : a + b = ⟨a.x + b.x, a.y + b.y, a.z + b.z⟩ := rfl

theorem Vec3.sub_def (a b : Vec3) : a - b = ⟨a.x - b.x, a.y - b.y, a.z - b.z⟩ := rfl

theorem Vec3.neg_def (a : Vec3) : -a = ⟨-a.x, -a.y, -a.z⟩ := rfl

theorem Vec3.mul_def (a b : Vec3) : a * b = ⟨a.x * b.x, a.y * b.y, a.z * b.z⟩ := rfl

theorem Vec3.smul_def (q : ℚ) (v : Vec3) : q * v = ⟨q * v.x, q * v.y, q * v.z⟩ := rfl

theorem Vec3.mulq_def (v : Vec3) (q : ℚ) : v * q = ⟨v.x * q, v.y * q, v.z * q⟩ := rfl

theorem Vec3.divq_def (v : Vec3) (q : ℚ) : v / q = ⟨v.x / q, v.y / q, v.z / q⟩ := rfl

theorem Vec3.dot_comm (a b : Vec3) : a.dot b = b.dot a := by unfold Vec3.dot; ring

theorem Vec3.neg_dot (a b : Vec3) : (-a).dot b = -(a.dot b) := by
  rw [Vec3.neg_def]; unfold Vec3.dot; ring

theorem Vec3.length_squared_nonneg (v : Vec3) : 0 ≤ v.length_squared := by
  unfold Vec3.length_squared; nlinarith [sq_nonneg v.x, sq_nonneg v.y, sq_nonneg v.z]

theorem Vec3.length_squared_pos {v : Vec3} (h : v ≠ ⟨0, 0, 0⟩) : 0 < v.length_squared := by
  rcases lt_or_eq_of_le (Vec3.length_squared_nonneg v) with hlt | heq
  · exact hlt
  · exfalso
    apply h
    obtain ⟨x, y, z⟩ := v
    unfold Vec3.length_squared at heq
    simp only at heq
    have hx : x = 0 := by nlinarith [sq_nonneg x, sq_nonneg y, sq_nonneg z]
    have hy : y = 0 := by nlinarith [sq_nonneg x, sq_nonneg y, sq_nonneg z]
    have hz : z = 0 := by nlinarith [sq_nonneg x, sq_nonneg y, sq_nonneg z]
    simp [hx, hy, hz]

/-! ### Basic lemmas about the extended rationals -/

theorem XQ.fin_le_fin {p q : ℚ} : XQ.fin p ≤ XQ.fin q ↔ p ≤ q := by
  simp [XQ.fin]

theorem XQ.fin_lt_fin {p q : ℚ} : XQ.fin p < XQ.fin q ↔ p < q := by
  simp [XQ.fin]

theorem XQ.fin_inj {p q : ℚ} : XQ.fin p = XQ.fin q ↔ p = q := by
  simp [XQ.fin]

theorem XQ.bot_lt_fin (q : ℚ) : (⊥ : XQ) < XQ.fin q := by
  simp [XQ.fin]

theorem XQ.fin_lt_top (q : ℚ) : XQ.fin q < (⊤ : XQ) := by
  simp only [XQ.fin]
  exact WithBot.coe_lt_coe.mpr (WithTop.coe_lt_top q)

theorem XQ.fin_ne_bot (q : ℚ) : XQ.fin q ≠ (⊥ : XQ) := by
  simp [XQ.fin]

theorem XQ.fin_ne_top (q : ℚ) : XQ.fin q ≠ (⊤ : XQ) := by
  simp only [XQ.fin]
  exact (XQ.fin_lt_top q).ne

theorem XQ.sub_fin_fin (p q : ℚ) : (XQ.fin p).sub (XQ.fin q) = XQ.fin (p - q) := rfl

theorem XQ.subQ_fin (p q : ℚ) : (XQ.fin p).subQ q = XQ.fin (p - q) := rfl

theorem XQ.addQ_fin (p q : ℚ) : (XQ.fin p).addQ q = XQ.fin (p + q) := rfl

/-! ### C9: merging with `EMPTY` is the identity -/

/-- C9.  For every interval `i`, merging with the canonical `EMPTY`
interval (`min = +∞`, `max = -∞`) yields `i` itself, in either argument
position. -/
theorem merge_empty_identity (i : Interval) :
    i.merge Interval.EMPTY = i ∧ Interval.EMPTY.merge i = i := by
  obtain ⟨mn, mx⟩ := i
  constructor
  · simp [Interval.merge, Interval.EMPTY]
  · simp [Interval.merge, Interval.EMPTY]

/-! ### C4: every constructed AABB axis has size at least 1e-4 -/

/-- A finite interval with ordered endpoints (what `from_points` feeds to
`AxisAlignedBoundingBox::new` on each axis). -/
def Interval.FinOrdered (i : Interval) : Prop :=
  ∃ p q : ℚ, p ≤ q ∧ i = ⟨XQ.fin p, XQ.fin q⟩

theorem pad_axis_size {i : Interval} (h : i.FinOrdered) :
    XQ.fin (1/10000) ≤ (if i.size < XQ.fin (1/10000) then i.expand (1/10000) else i).size := by
  obtain ⟨p, q, hpq, rfl⟩ := h
  have hsize : Interval.size ⟨XQ.fin p, XQ.fin q⟩ = XQ.fin (q - p) := XQ.sub_fin_fin q p
  by_cases hlt : Interval.size ⟨XQ.fin p, XQ.fin q⟩ < XQ.fin (1/10000)
  · rw [if_pos hlt]
    have : (Interval.expand ⟨XQ.fin p, XQ.fin q⟩ (1/10000)).size
        = XQ.fin (q + 1/10000/2 - (p - 1/10000/2)) := by
      simp only [Interval.expand, Interval.size, XQ.subQ_fin, XQ.addQ_fin, XQ.sub_fin_fin]
    rw [this, XQ.fin_le_fin]
    linarith
  · rw [if_neg hlt]
    rw [hsize] at hlt ⊢
    rw [XQ.fin_lt_fin] at hlt
    rw [XQ.fin_le_fin]
    linarith [not_lt.mp hlt]

theorem pad_to_minimums_size {x y z : Interval} (hx : x.FinOrdered) (hy : y.FinOrdered)
    (hz : z.FinOrdered) :
    XQ.fin (1/10000) ≤ (AxisAlignedBoundingBox.new x y z).x.size ∧
    XQ.fin (1/10000) ≤ (AxisAlignedBoundingBox.new x y z).y.size ∧
    XQ.fin (1/10000) ≤ (AxisAlignedBoundingBox.new x y z).z.size := by
  refine ⟨?_, ?_, ?_⟩
  · exact pad_axis_size hx
  · exact pad_axis_size hy
  · exact pad_axis_size hz

theorem from_points_axis_ordered (a b : ℚ) :
    Interval.FinOrdered (if a ≤ b then Interval.new (XQ.fin a) (XQ.fin b)
      else Interval.new (XQ.fin b) (XQ.fin a)) := by
  by_cases h : a ≤ b
  · exact ⟨a, b, h, by rw [if_pos h]; rfl⟩
  · exact ⟨b, a, le_of_not_le h, by rw [if_neg h]; rfl⟩

/-- C4.  Every axis interval of a box built by
`AxisAlignedBoundingBox::from_points` from any pair of points (coincident
or coplanar included), or by `AxisAlignedBoundingBox::new` from finite
ordered axis intervals (the only inputs the points pathway produces), has
size at least the padding minimum `1e-4`. -/
theorem aabb_padding_minimum (a b : Vec3) (x y z : Interval) (hx : x.FinOrdered)
    (hy : y.FinOrdered) (hz : z.FinOrdered) :
    (XQ.fin (1/10000) ≤ (AxisAlignedBoundingBox.from_points a b).x.size ∧
     XQ.fin (1/10000) ≤ (AxisAlignedBoundingBox.from_points a b).y.size ∧
     XQ.fin (1/10000) ≤ (AxisAlignedBoundingBox.from_points a b).z.size) ∧
    (XQ.fin (1/10000) ≤ (AxisAlignedBoundingBox.new x y z).x.size ∧
     XQ.fin (1/10000) ≤ (AxisAlignedBoundingBox.new x y z).y.size ∧
     XQ.fin (1/10000) ≤ (AxisAlignedBoundingBox.new x y z).z.size) := by
  constructor
  · exact pad_to_minimums_size (from_points_axis_ordered a.x b.x)
      (from_points_axis_ordered a.y b.y) (from_points_axis_ordered a.z b.z)
  · exact pad_to_minimums_size hx hy hz

/-- Witness for C4 at concrete degenerate input: two coincident points and
three ordered axis intervals. -/
theorem aabb_padding_minimum_witness :
    Interval.FinOrdered ⟨XQ.fin 0, XQ.fin 1⟩ ∧
    (XQ.fin (1/10000) ≤ (AxisAlignedBoundingBox.from_points ⟨1, 2, 3⟩ ⟨1, 2, 3⟩).x.size ∧
     XQ.fin (1/10000) ≤ (AxisAlignedBoundingBox.from_points ⟨1, 2, 3⟩ ⟨1, 2, 3⟩).y.size ∧
     XQ.fin (1/10000) ≤ (AxisAlignedBoundingBox.from_points ⟨1, 2, 3⟩ ⟨1, 2, 3⟩).z.size) := by
  have hw : Interval.FinOrdered ⟨XQ.fin 0, XQ.fin 1⟩ := ⟨0, 1, by norm_num, rfl⟩
  exact ⟨hw, (aabb_padding_minimum ⟨1, 2, 3⟩ ⟨1, 2, 3⟩ _ _ _ hw hw hw).1⟩

/-! ### C6: `longest_axis` tie-breaking

The claim asserts first-found-maximum tie-breaking in the order x, y, z
(so a cube would yield axis `0`).  The source uses `Iterator::max_by` with
`f64::total_cmp`, and `max_by` returns the LAST of equally-maximal
elements, so a cube yields axis `2`. -/

unseal Rat.mul Rat.add Rat.inv Rat.sub in
/-- C6 counterexample.  On the unit cube (all three axis sizes equal, so
the axis of maximum extent is tied and first-found-maximum would be the x
axis, index 0), `longest_axis` returns 2, not 0. -/
theorem longest_axis_tie_counterexample :
    (AxisAlignedBoundingBox.new ⟨XQ.fin 0, XQ.fin 1⟩ ⟨XQ.fin 0, XQ.fin 1⟩
        ⟨XQ.fin 0, XQ.fin 1⟩).x.size =
      (AxisAlignedBoundingBox.new ⟨XQ.fin 0, XQ.fin 1⟩ ⟨XQ.fin 0, XQ.fin 1⟩
        ⟨XQ.fin 0, XQ.fin 1⟩).y.size ∧
    (AxisAlignedBoundingBox.new ⟨XQ.fin 0, XQ.fin 1⟩ ⟨XQ.fin 0, XQ.fin 1⟩
        ⟨XQ.fin 0, XQ.fin 1⟩).y.size =
      (AxisAlignedBoundingBox.new ⟨XQ.fin 0, XQ.fin 1⟩ ⟨XQ.fin 0, XQ.fin 1⟩
        ⟨XQ.fin 0, XQ.fin 1⟩).z.size ∧
    (AxisAlignedBoundingBox.new ⟨XQ.fin 0, XQ.fin 1⟩ ⟨XQ.fin 0, XQ.fin 1⟩
        ⟨XQ.fin 0, XQ.fin 1⟩).longest_axis = 2 := by
  refine ⟨rfl, rfl, ?_⟩
  decide

/-- C6 as amended.  `longest_axis` returns the index of an axis of maximum
extent, with ties broken by the LAST maximum in the fixed order x, y, z
(for a cube it returns the z axis, index 2): the selected axis attains the
maximum size, and the index is `2` unless the z size is strictly below the
running x/y maximum, in which case it is `0` exactly when the y size is
strictly below the x size. -/
theorem longest_axis_last_max_amended (b : AxisAlignedBoundingBox) :
    b.axisSize b.longest_axis = max (max b.x.size b.y.size) b.z.size ∧
    b.longest_axis = (if b.z.size < max b.x.size b.y.size then
      (if b.y.size < b.x.size then 0 else 1) else 2) := by
  unfold AxisAlignedBoundingBox.longest_axis AxisAlignedBoundingBox.axisSize
  rcases lt_or_le b.y.size b.x.size with hyx | hxy
  · have hmax : max b.x.size b.y.size = b.x.size := max_eq_left hyx.le
    rcases lt_or_le b.z.size b.x.size with hzx | hxz
    · simp only [if_pos hyx, if_pos hzx, hmax]
      norm_num [max_eq_left hyx.le, max_eq_left hzx.le]
    · simp only [if_pos hyx, if_neg (not_lt.mpr hxz), hmax]
      norm_num [max_eq_left hyx.le, max_eq_right hxz]
  · have hmax : max b.x.size b.y.size = b.y.size := max_eq_right hxy
    rcases lt_or_le b.z.size b.y.size with hzy | hyz
    · simp only [if_neg (not_lt.mpr hxy), if_pos hzy, hmax]
      norm_num [max_eq_right hxy, max_eq_left hzy.le, not_lt.mpr hxy]
    · simp only [if_neg (not_lt.mpr hxy), if_neg (not_lt.mpr hyz), hmax]
      norm_num [max_eq_right hxy, max_eq_right hyz, not_lt.mpr hxy]

/-! ### C7: `DiffuseLight` never scatters and emits one-sided -/

/-- C7.  For every incoming ray, hit record and random draw,
`DiffuseLight::scatter` returns `None`, and `DiffuseLight::emitted`
returns the material's fixed color exactly on front-face hits and the zero
color otherwise. -/
theorem diffuse_light_scatter_emitted (c : Color) (r_in : Ray) (rec : HitRecord)
    (rnd : Rand) (p : Vec3) :
    (AnyMaterial.diffuseLight c).scatter r_in rec rnd = none ∧
    (AnyMaterial.diffuseLight c).emitted r_in rec p =
      (if rec.front_face then c else ⟨0, 0, 0⟩) := by
  refine ⟨rfl, ?_⟩
  unfold AnyMaterial.emitted
  cases rec.front_face <;> simp [Vec3.splat]

/-! ### C8: the stored hit normal opposes the incoming ray -/

/-- C8.  For every ray, parameter and outward-normal function, the record
built by `HitRecord::new` has `front_face` set exactly when the ray
direction has nonpositive dot product with the outward normal at the hit
point, and the stored (possibly flipped) normal always opposes the ray:
`normal · direction ≤ 0`. -/
theorem hit_record_front_face_normal (r : Ray) (t : ℚ) (outward : Vec3 → Vec3)
    (m : AnyMaterial) :
    ((HitRecord.new r t outward m).front_face = true ↔
      r.direction.dot (outward (r.at t)) ≤ 0) ∧
    (HitRecord.new r t outward m).normal.dot r.direction ≤ 0 := by
  unfold HitRecord.new
  simp only [decide_eq_true_eq]
  by_cases h : r.direction.dot (outward (r.at t)) ≤ 0
  · rw [if_pos (by simp [h])]
    refine ⟨by simp [h], ?_⟩
    rw [Vec3.dot_comm]; exact h
  · rw [if_neg (by simp [h])]
    refine ⟨by simp [h], ?_⟩
    rw [Vec3.neg_dot, Vec3.dot_comm]
    linarith [lt_of_not_le h]

/-! ### Lemmas about `ratSqrt` -/

theorem ratSqrt_nonneg (q : ℚ) : 0 ≤ ratSqrt q := by
  simp only [ratSqrt]
  split
  · positivity
  · exact le_refl 0

theorem ratSqrt_sq_le {q : ℚ} (h : 0 ≤ q) : ratSqrt q * ratSqrt q ≤ q := by
  simp only [ratSqrt]
  split
  · next hcond =>
    obtain ⟨-, hn, hd⟩ := hcond
    have hden : (q.den : ℚ) ≠ 0 := by
      exact_mod_cast q.den_nz
    have hsd : ((natSqrtGo q.den q.den : ℕ) : ℚ) ≠ 0 := by
      intro h0
      apply hden
      have : (natSqrtGo q.den q.den) = 0 := by exact_mod_cast h0
      rw [← hd, this]
      norm_num
    have key : ((natSqrtGo q.num.toNat q.num.toNat : ℕ) : ℚ) / (natSqrtGo q.den q.den : ℕ)
        * (((natSqrtGo q.num.toNat q.num.toNat : ℕ) : ℚ) / (natSqrtGo q.den q.den : ℕ)) = q := by
      rw [div_mul_div_comm]
      rw [show ((natSqrtGo q.num.toNat q.num.toNat : ℕ) : ℚ)
          * (natSqrtGo q.num.toNat q.num.toNat : ℕ)
          = ((natSqrtGo q.num.toNat q.num.toNat * natSqrtGo q.num.toNat q.num.toNat : ℕ) : ℚ)
        by push_cast; ring]
      rw [show ((natSqrtGo q.den q.den : ℕ) : ℚ) * (natSqrtGo q.den q.den : ℕ)
          = ((natSqrtGo q.den q.den * natSqrtGo q.den q.den : ℕ) : ℚ) by push_cast; ring]
      rw [hn, hd]
      rw [show ((q.num.toNat : ℕ) : ℚ) = ((q.num : ℤ) : ℚ) by
        exact_mod_cast Int.toNat_of_nonneg (Rat.num_nonneg.mpr h)]
      exact Rat.num_div_den q
    exact le_of_eq key
  · simpa using h

/-! ### C5: sphere quadratic root selection -/

theorem sphere_hit_eq (s : Sphere) (r : Ray) (i : Interval) :
    s.hit r i =
      if sphereDisc s r < 0 then none
      else
        (if i.surrounds (sphereRoot1 s r) then some (sphereRoot1 s r)
         else if i.surrounds (sphereRoot2 s r) then some (sphereRoot2 s r)
         else none).map (sphereRecord s r) := rfl

/-- C5.  For a nonzero-direction ray and any accepted interval,
`Sphere::hit` misses when the discriminant is negative; otherwise it
selects the smaller quadratic root when the interval surrounds it, falls
back to the larger root, and misses when both are out of range; the
returned record's parameter is exactly the selected root. -/
theorem sphere_hit_root_selection (s : Sphere) (r : Ray) (i : Interval)
    (hdir : r.direction ≠ ⟨0, 0, 0⟩) :
    sphereRoot1 s r ≤ sphereRoot2 s r ∧
    (sphereDisc s r < 0 → s.hit r i = none) ∧
    (¬ sphereDisc s r < 0 → i.surrounds (sphereRoot1 s r) →
      (s.hit r i).map (·.t) = some (sphereRoot1 s r)) ∧
    (¬ sphereDisc s r < 0 → ¬ i.surrounds (sphereRoot1 s r) →
      i.surrounds (sphereRoot2 s r) →
      (s.hit r i).map (·.t) = some (sphereRoot2 s r)) ∧
    (¬ sphereDisc s r < 0 → ¬ i.surrounds (sphereRoot1 s r) →
      ¬ i.surrounds (sphereRoot2 s r) → s.hit r i = none) := by
  have ha : 0 < sphereA r := Vec3.length_squared_pos hdir
  have hsq : 0 ≤ ratSqrt (sphereDisc s r) := ratSqrt_nonneg _
  refine ⟨?_, ?_, ?_, ?_, ?_⟩
  · unfold sphereRoot1 sphereRoot2
    exact (div_le_div_iff_of_pos_right ha).mpr (by linarith)
  · intro hneg
    rw [sphere_hit_eq, if_pos hneg]
  · intro hnneg h1
    rw [sphere_hit_eq, if_neg hnneg, if_pos h1]
    simp [sphereRecord, HitRecord.new]
  · intro hnneg h1 h2
    rw [sphere_hit_eq, if_neg hnneg, if_neg h1, if_pos h2]
    simp [sphereRecord, HitRecord.new]
  · intro hnneg h1 h2
    rw [sphere_hit_eq, if_neg hnneg, if_neg h1, if_neg h2]
    rfl

unseal Rat.mul Rat.add Rat.inv Rat.sub in
/-- Witness for C5: a concrete outside ray into the unit sphere hits at the
smaller root `t = 1`. -/
theorem sphere_hit_root_selection_witness :
    (Sphere.hit ⟨⟨0, 0, 0⟩, 1, .dummy⟩ ⟨⟨0, 0, 2⟩, ⟨0, 0, -1⟩⟩
        ⟨XQ.fin (1/1000), XQ.fin 100⟩).map (·.t)
      = some (sphereRoot1 ⟨⟨0, 0, 0⟩, 1, .dummy⟩ ⟨⟨0, 0, 2⟩, ⟨0, 0, -1⟩⟩) :=
  (sphere_hit_root_selection ⟨⟨0, 0, 0⟩, 1, .dummy⟩ ⟨⟨0, 0, 2⟩, ⟨0, 0, -1⟩⟩
    ⟨XQ.fin (1/1000), XQ.fin 100⟩ (by decide)).2.2.1 (by decide) (by decide)

/-! ### C10: `Dielectric` never absorbs -/

/-- C10.  For every refraction index, incoming ray, hit record and random
draw, `Dielectric::scatter` returns `Some`, with attenuation exactly
`(1, 1, 1)` and a pre-determined (`skip_pdf`) scattered ray. -/
theorem dielectric_always_scatters (ri : ℚ) (r_in : Ray) (rec : HitRecord) (rnd : Rand) :
    ((AnyMaterial.dielectric ri).scatter r_in rec rnd).isSome = true ∧
    ∀ srec, (AnyMaterial.dielectric ri).scatter r_in rec rnd = some srec →
      srec.attenuation = Vec3.splat 1 ∧ srec.skip_pdf.isSome = true := by
  refine ⟨rfl, fun srec hs => ?_⟩
  cases hs
  exact ⟨rfl, rfl⟩

unseal Rat.mul Rat.add Rat.inv Rat.sub in
/-- Witness for C10 at a concrete refracting configuration. -/
theorem dielectric_always_scatters_witness :
    (⟨Vec3.splat 1, .spherePdf, some ⟨⟨0, 0, 0⟩, ⟨0, 0, -1⟩⟩⟩ : ScatterRecord).attenuation
        = Vec3.splat 1 ∧
    (⟨Vec3.splat 1, .spherePdf, some ⟨⟨0, 0, 0⟩, ⟨0, 0, -1⟩⟩⟩ : ScatterRecord).skip_pdf.isSome
        = true :=
  (dielectric_always_scatters 3 ⟨⟨0, 0, 1⟩, ⟨0, 0, -1⟩⟩
    ⟨⟨0, 0, 0⟩, ⟨0, 0, 1⟩, 1, false, .dielectric 3⟩
    ⟨⟨0, 0, 0⟩, 1/2, true, 0, 0, 0, 1, 0⟩).2 _ (by decide)

/-! ### C3: BVH construction panics exactly on the empty list -/

theorem length_sortInsert (axis : ℕ) (s : Sphere) (l : List Sphere) :
    (sortInsert axis s l).length = l.length + 1 := by
  induction l with
  | nil => rfl
  | cons y ys ih =>
    rw [sortInsert]
    split
    · rfl
    · simp only [List.length_cons, ih]

theorem length_sortByAxis (axis : ℕ) (l : List Sphere) :
    (sortByAxis axis l).length = l.length := by
  induction l with
  | nil => rfl
  | cons s rest ih =>
    rw [sortByAxis, length_sortInsert, ih, List.length_cons]

theorem bvhGo_isSome : ∀ (fuel : ℕ) (objs : List Sphere), objs.length ≤ fuel →
    objs ≠ [] → (bvhGo fuel objs).isSome = true := by
  intro fuel
  induction fuel with
  | zero =>
    intro objs hlen hne
    exact absurd (List.length_eq_zero.mp (Nat.le_zero.mp hlen)) hne
  | succ fuel ih =>
    intro objs hlen hne
    match objs with
    | [] => exact absurd rfl hne
    | [s] => rfl
    | [s1, s2] => rfl
    | a :: b :: c :: rest =>
      rw [bvhGo]
      have hn : 3 ≤ (a :: b :: c :: rest).length := by simp [List.length_cons]
      set n := (a :: b :: c :: rest).length with hn_def
      have hsorted : (sortByAxis (mergedBox (a :: b :: c :: rest)).longest_axis
          (a :: b :: c :: rest)).length = n := length_sortByAxis _ _
      have hmid1 : 1 ≤ n / 2 := by omega
      have hmidn : n / 2 < n := by omega
      have htake : ((sortByAxis (mergedBox (a :: b :: c :: rest)).longest_axis
          (a :: b :: c :: rest)).take ((sortByAxis (mergedBox (a :: b :: c :: rest)).longest_axis
          (a :: b :: c :: rest)).length / 2)).length = n / 2 := by
        rw [List.length_take, hsorted]
        omega
      have hdrop : ((sortByAxis (mergedBox (a :: b :: c :: rest)).longest_axis
          (a :: b :: c :: rest)).drop ((sortByAxis (mergedBox (a :: b :: c :: rest)).longest_axis
          (a :: b :: c :: rest)).length / 2)).length = n - n / 2 := by
        rw [List.length_drop, hsorted]
      have h1 := ih _ (by rw [htake]; omega) (by
        intro hnil
        rw [hnil] at htake
        simp at htake
        omega)
      have h2 := ih _ (by rw [hdrop]; omega) (by
        intro hnil
        rw [hnil] at hdrop
        simp at hdrop
        omega)
      obtain ⟨t1, ht1⟩ := Option.isSome_iff_exists.mp h1
      obtain ⟨t2, ht2⟩ := Option.isSome_iff_exists.mp h2
      rw [ht1, ht2]
      rfl

/-- C3.  Building a BVH from an empty object list is a fatal error
(modelled by `none`, the embedding of the source's `panic!`); from any
non-empty list the construction succeeds and returns a node. -/
theorem bvh_empty_panics_nonempty_succeeds :
    BvhNode.from_objects ([] : List Sphere) = none ∧
    ∀ objs : List Sphere, objs ≠ [] → (BvhNode.from_objects objs).isSome = true :=
  ⟨rfl, fun objs h => bvhGo_isSome objs.length objs le_rfl h⟩

unseal Rat.mul Rat.add Rat.inv Rat.sub in
/-- Witness for C3: construction from a one-sphere list succeeds. -/
theorem bvh_empty_panics_nonempty_succeeds_witness :
    ([(⟨⟨0, 0, 0⟩, 1, .dummy⟩ : Sphere)] ≠ []) ∧
    (BvhNode.from_objects [(⟨⟨0, 0, 0⟩, 1, .dummy⟩ : Sphere)]).isSome = true :=
  ⟨by decide, bvh_empty_panics_nonempty_succeeds.2 _ (by decide)⟩

/-! ### C1: the integrator's `skip_pdf` branch -/

theorem vec3_zero_add (v : Vec3) : (⟨0, 0, 0⟩ : Vec3) + v = v := by
  rw [Vec3.add_def]
  obtain ⟨x, y, z⟩ := v
  norm_num

/-- The only materials whose scatter result can carry a `skip_pdf` ray
(`Metal`, `Dielectric`) use the default zero `emitted`. -/
theorem skip_pdf_emitted_zero (m : AnyMaterial) (r : Ray) (rec : HitRecord) (rnd : Rand)
    (srec : ScatterRecord) (ray2 : Ray) (p : Vec3)
    (hs : m.scatter r rec rnd = some srec) (hk : srec.skip_pdf = some ray2) :
    m.emitted r rec p = ⟨0, 0, 0⟩ := by
  cases m with
  | lambertian albedo =>
    rw [AnyMaterial.scatter] at hs
    cases hs
    simp at hk
  | metal albedo fuzziness => rfl
  | dielectric ri => rfl
  | diffuseLight c => exact absurd hs (by rw [AnyMaterial.scatter]; simp)
  | dummy => exact absurd hs (by rw [AnyMaterial.scatter]; simp)

/-- C1.  Whenever the hit material's scatter result carries a
pre-determined ray (`skip_pdf` is `Some`), `Camera::ray_color` returns
`emission + attenuation * radiance(that ray, depth - 1)` with no PDF
division (for every such hit the emitted color of the material — zero for
both `skip_pdf` materials — is included in the result of this branch). -/
theorem ray_color_skip_pdf_branch (cam : Camera) (world lights : List Sphere) (r : Ray)
    (depth : ℕ) (stream : ℕ → Rand) (rec : HitRecord) (srec : ScatterRecord) (ray2 : Ray)
    (hdepth : 0 < depth)
    (hhit : ObjectList.hit world r (Interval.new (XQ.fin (1/1000)) ⊤) = some rec)
    (hscatter : rec.material.scatter r rec (stream 0) = some srec)
    (hskip : srec.skip_pdf = some ray2) :
    cam.ray_color world lights r depth stream =
      rec.material.emitted r rec rec.point +
        srec.attenuation * cam.ray_color world lights ray2 (depth - 1) (fun n => stream (n + 1)) ∧
    rec.material.emitted r rec rec.point = ⟨0, 0, 0⟩ := by
  have hem : rec.material.emitted r rec rec.point = ⟨0, 0, 0⟩ :=
    skip_pdf_emitted_zero rec.material r rec (stream 0) srec ray2 rec.point hscatter hskip
  refine ⟨?_, hem⟩
  match depth, hdepth with
  | d + 1, _ =>
    rw [Camera.ray_color, hhit]
    dsimp only
    rw [hscatter]
    dsimp only
    rw [hskip, hem, Nat.add_sub_cancel]
    dsimp only
    rw [vec3_zero_add]

unseal Rat.mul Rat.add Rat.inv Rat.sub in
/-- Witness for C1: a fuzz-free metal sphere hit head-on; the returned
radiance is the emission (zero) plus attenuation times the radiance of the
reflected ray. -/
theorem ray_color_skip_pdf_branch_witness :
    Camera.ray_color ⟨⟨0, 0, 0⟩⟩ [⟨⟨0, 0, 0⟩, 1, .metal ⟨1/2, 1/2, 1/2⟩ 0⟩] []
        ⟨⟨0, 0, 2⟩, ⟨0, 0, -1⟩⟩ 2 (fun _ => ⟨⟨1, 0, 0⟩, 0, true, 0, 0, 0, 1, 0⟩) =
      (AnyMaterial.metal ⟨1/2, 1/2, 1/2⟩ 0).emitted ⟨⟨0, 0, 2⟩, ⟨0, 0, -1⟩⟩
          ⟨⟨0, 0, 1⟩, ⟨0, 0, 1⟩, 1, true, .metal ⟨1/2, 1/2, 1/2⟩ 0⟩ ⟨0, 0, 1⟩ +
        (⟨1/2, 1/2, 1/2⟩ : Vec3) * Camera.ray_color ⟨⟨0, 0, 0⟩⟩
          [⟨⟨0, 0, 0⟩, 1, .metal ⟨1/2, 1/2, 1/2⟩ 0⟩] [] ⟨⟨0, 0, 1⟩, ⟨0, 0, 1⟩⟩ 1
          (fun n => (fun _ : ℕ => (⟨⟨1, 0, 0⟩, 0, true, 0, 0, 0, 1, 0⟩ : Rand)) (n + 1)) :=
  (ray_color_skip_pdf_branch ⟨⟨0, 0, 0⟩⟩ [⟨⟨0, 0, 0⟩, 1, .metal ⟨1/2, 1/2, 1/2⟩ 0⟩] []
    ⟨⟨0, 0, 2⟩, ⟨0, 0, -1⟩⟩ 2 (fun _ => ⟨⟨1, 0, 0⟩, 0, true, 0, 0, 0, 1, 0⟩)
    ⟨⟨0, 0, 1⟩, ⟨0, 0, 1⟩, 1, true, .metal ⟨1/2, 1/2, 1/2⟩ 0⟩
    ⟨⟨1/2, 1/2, 1/2⟩, .spherePdf, some ⟨⟨0, 0, 1⟩, ⟨0, 0, 1⟩⟩⟩ ⟨⟨0, 0, 1⟩, ⟨0, 0, 1⟩⟩
    (by decide) (by decide) (by decide) (by decide)).1

/-! ### C2 development, part 1: slab-test geometry -/

theorem XQ.mulQ_fin (p q : ℚ) : (XQ.fin p).mulQ q = XQ.fin (p * q) := rfl

theorem XQ.mulQ_bot_of_pos {q : ℚ} (h : 0 < q) : (⊥ : XQ).mulQ q = ⊥ := by
  simp [XQ.mulQ, h]

theorem XQ.mulQ_bot_of_neg {q : ℚ} (h : q < 0) : (⊥ : XQ).mulQ q = ⊤ := by
  simp [XQ.mulQ, h, not_lt.mpr h.le]

theorem XQ.mulQ_top_of_pos {q : ℚ} (h : 0 < q) : (⊤ : XQ).mulQ q = ⊤ := by
  simp [XQ.mulQ, h]

theorem XQ.mulQ_top_of_neg {q : ℚ} (h : q < 0) : (⊤ : XQ).mulQ q = ⊥ := by
  simp [XQ.mulQ, h, not_lt.mpr h.le]

theorem XQ.subQ_bot (q : ℚ) : (⊥ : XQ).subQ q = ⊥ := rfl

theorem XQ.subQ_top (q : ℚ) : (⊤ : XQ).subQ q = ⊤ := rfl

theorem XQ.not_top_le_fin (p : ℚ) : ¬((⊤ : XQ) ≤ XQ.fin p) :=
  not_le.mpr (XQ.fin_lt_top p)

theorem XQ.not_fin_le_bot (p : ℚ) : ¬(XQ.fin p ≤ (⊥ : XQ)) :=
  not_le.mpr (XQ.bot_lt_fin p)

theorem XQ.cases3 (x : XQ) : x = ⊥ ∨ x = ⊤ ∨ ∃ m : ℚ, x = XQ.fin m := by
  rcases x with _ | (_ | m)
  · exact Or.inl rfl
  · exact Or.inr (Or.inl rfl)
  · exact Or.inr (Or.inr ⟨m, rfl⟩)

/-- The per-axis candidate parameter `(bound - o) * (1/d)` brackets the
parameter of any point whose coordinate lies within the slab. -/
theorem slab_bracket {bmin bmax : XQ} {o d px t : ℚ} (hd : d ≠ 0)
    (hp : px = o + d * t) (h1 : bmin ≤ XQ.fin px) (h2 : XQ.fin px ≤ bmax) :
    slabLo ⟨bmin, bmax⟩ o d ≤ XQ.fin t ∧ XQ.fin t ≤ slabHi ⟨bmin, bmax⟩ o d := by
  have ht : t = (px - o) * (1 / d) := by
    rw [hp]
    field_simp
  rcases lt_or_gt_of_ne hd with hneg | hpos
  · -- d < 0: the max-bound candidate is below `t`, the min-bound one above
    have hinv : (1 : ℚ) / d < 0 := one_div_neg.mpr hneg
    have hB : (bmax.subQ o).mulQ (1 / d) ≤ XQ.fin t := by
      rcases XQ.cases3 bmax with rfl | rfl | ⟨M, rfl⟩
      · exact absurd h2 (XQ.not_fin_le_bot px)
      · rw [XQ.subQ_top, XQ.mulQ_top_of_neg hinv]
        exact bot_le
      · rw [XQ.subQ_fin, XQ.mulQ_fin, XQ.fin_le_fin, ht]
        have hM : px ≤ M := XQ.fin_le_fin.mp h2
        exact mul_le_mul_of_nonpos_right (by linarith) hinv.le
    have hA : XQ.fin t ≤ (bmin.subQ o).mulQ (1 / d) := by
      rcases XQ.cases3 bmin with rfl | rfl | ⟨m, rfl⟩
      · rw [XQ.subQ_bot, XQ.mulQ_bot_of_neg hinv]
        exact le_top
      · exact absurd h1 (XQ.not_top_le_fin px)
      · rw [XQ.subQ_fin, XQ.mulQ_fin, XQ.fin_le_fin, ht]
        have hm : m ≤ px := XQ.fin_le_fin.mp h1
        exact mul_le_mul_of_nonpos_right (by linarith) hinv.le
    exact ⟨(min_le_right _ _).trans hB, hA.trans (le_max_left _ _)⟩
  · -- d > 0: the min-bound candidate is below `t`, the max-bound one above
    have hinv : (0 : ℚ) < 1 / d := one_div_pos.mpr hpos
    have hA : (bmin.subQ o).mulQ (1 / d) ≤ XQ.fin t := by
      rcases XQ.cases3 bmin with rfl | rfl | ⟨m, rfl⟩
      · rw [XQ.subQ_bot, XQ.mulQ_bot_of_pos hinv]
        exact bot_le
      · exact absurd h1 (XQ.not_top_le_fin px)
      · rw [XQ.subQ_fin, XQ.mulQ_fin, XQ.fin_le_fin, ht]
        have hm : m ≤ px := XQ.fin_le_fin.mp h1
        exact mul_le_mul_of_nonneg_right (by linarith) hinv.le
    have hB : XQ.fin t ≤ (bmax.subQ o).mulQ (1 / d) := by
      rcases XQ.cases3 bmax with rfl | rfl | ⟨M, rfl⟩
      · exact absurd h2 (XQ.not_fin_le_bot px)
      · rw [XQ.subQ_top, XQ.mulQ_top_of_pos hinv]
        exact le_top
      · rw [XQ.subQ_fin, XQ.mulQ_fin, XQ.fin_le_fin, ht]
        have hM : px ≤ M := XQ.fin_le_fin.mp h2
        exact mul_le_mul_of_nonneg_right (by linarith) hinv.le
    exact ⟨(min_le_left _ _).trans hA, hB.trans (le_max_right _ _)⟩

/-- With distinct slab planes and a nonzero direction component, the two
candidate parameters differ, so the entry parameter is strictly below the
exit parameter. -/
theorem slab_strict {bmin bmax : XQ} {o d : ℚ} (hd : d ≠ 0) (hlt : bmin < bmax) :
    slabLo ⟨bmin, bmax⟩ o d < slabHi ⟨bmin, bmax⟩ o d := by
  apply min_lt_max.mpr
  have hinv : (1 : ℚ) / d ≠ 0 := one_div_ne_zero hd
  rcases XQ.cases3 bmin with rfl | rfl | ⟨m, rfl⟩ <;>
    rcases XQ.cases3 bmax with rfl | rfl | ⟨M, rfl⟩
  · exact absurd hlt (lt_irrefl _)
  · rcases lt_or_gt_of_ne hd with hneg | hpos
    · rw [XQ.subQ_bot, XQ.subQ_top, XQ.mulQ_bot_of_neg (one_div_neg.mpr hneg),
        XQ.mulQ_top_of_neg (one_div_neg.mpr hneg)]
      exact (bot_lt_top).ne'
    · rw [XQ.subQ_bot, XQ.subQ_top, XQ.mulQ_bot_of_pos (one_div_pos.mpr hpos),
        XQ.mulQ_top_of_pos (one_div_pos.mpr hpos)]
      exact (bot_lt_top).ne
  · rcases lt_or_gt_of_ne hd with hneg | hpos
    · rw [XQ.subQ_bot, XQ.subQ_fin, XQ.mulQ_bot_of_neg (one_div_neg.mpr hneg), XQ.mulQ_fin]
      exact (XQ.fin_lt_top _).ne'
    · rw [XQ.subQ_bot, XQ.subQ_fin, XQ.mulQ_bot_of_pos (one_div_pos.mpr hpos), XQ.mulQ_fin]
      exact (XQ.bot_lt_fin _).ne
  · exact absurd hlt (by simp)
  · exact absurd hlt (by simp)
  · exact absurd hlt (by simp)
  · exact absurd hlt (by simp [XQ.fin])
  · rcases lt_or_gt_of_ne hd with hneg | hpos
    · rw [XQ.subQ_fin, XQ.subQ_top, XQ.mulQ_top_of_neg (one_div_neg.mpr hneg), XQ.mulQ_fin]
      exact (XQ.bot_lt_fin _).ne'
    · rw [XQ.subQ_fin, XQ.subQ_top, XQ.mulQ_top_of_pos (one_div_pos.mpr hpos), XQ.mulQ_fin]
      exact (XQ.fin_lt_top _).ne
  · rw [XQ.subQ_fin, XQ.subQ_fin, XQ.mulQ_fin, XQ.mulQ_fin]
    have hmM : m < M := by
      have := hlt
      simp only [XQ.fin] at this ⊢
      exact_mod_cast this
    intro heq
    rw [XQ.fin_inj] at heq
    exact hd (by
      have := mul_right_cancel₀ (one_div_ne_zero hd) heq
      exact absurd (by linarith : m = M) hmM.ne)

/-- If one of the slab candidates exactly equals the hit parameter, the hit
point's coordinate lies exactly on the corresponding slab plane. -/
theorem slab_boundary {bmin bmax : XQ} {o d px t : ℚ} (hd : d ≠ 0)
    (hp : px = o + d * t)
    (h : slabLo ⟨bmin, bmax⟩ o d = XQ.fin t ∨ slabHi ⟨bmin, bmax⟩ o d = XQ.fin t) :
    bmin = XQ.fin px ∨ bmax = XQ.fin px := by
  have ht : t = (px - o) * (1 / d) := by
    rw [hp]
    field_simp
  have hcand : (bmin.subQ o).mulQ (1 / d) = XQ.fin t ∨ (bmax.subQ o).mulQ (1 / d) = XQ.fin t := by
    rcases h with h | h
    · rcases min_choice ((bmin.subQ o).mulQ (1 / d)) ((bmax.subQ o).mulQ (1 / d)) with hc | hc
      · exact Or.inl ((hc.symm.trans h))
      · exact Or.inr ((hc.symm.trans h))
    · rcases max_choice ((bmin.subQ o).mulQ (1 / d)) ((bmax.subQ o).mulQ (1 / d)) with hc | hc
      · exact Or.inl ((hc.symm.trans h))
      · exact Or.inr ((hc.symm.trans h))
  have side : ∀ b : XQ, (b.subQ o).mulQ (1 / d) = XQ.fin t → b = XQ.fin px := by
    intro b hb
    rcases XQ.cases3 b with rfl | rfl | ⟨m, rfl⟩
    · rcases lt_or_gt_of_ne hd with hneg | hpos
      · rw [XQ.subQ_bot, XQ.mulQ_bot_of_neg (one_div_neg.mpr hneg)] at hb
        exact absurd hb.symm (XQ.fin_ne_top t)
      · rw [XQ.subQ_bot, XQ.mulQ_bot_of_pos (one_div_pos.mpr hpos)] at hb
        exact absurd hb.symm (XQ.fin_ne_bot t)
    · rcases lt_or_gt_of_ne hd with hneg | hpos
      · rw [XQ.subQ_top, XQ.mulQ_top_of_neg (one_div_neg.mpr hneg)] at hb
        exact absurd hb.symm (XQ.fin_ne_bot t)
      · rw [XQ.subQ_top, XQ.mulQ_top_of_pos (one_div_pos.mpr hpos)] at hb
        exact absurd hb.symm (XQ.fin_ne_top t)
    · rw [XQ.subQ_fin, XQ.mulQ_fin] at hb
      rw [XQ.fin_inj] at hb
      rw [XQ.fin_inj.symm.mp rfl]
      congr 1
      have := hb.trans ht
      have hmpx : (m - o) * (1 / d) = (px - o) * (1 / d) := this
      have := mul_right_cancel₀ (one_div_ne_zero hd) hmpx
      linarith
  rcases hcand with hc | hc
  · exact Or.inl (side _ hc)
  · exact Or.inr (side _ hc)

theorem slabStep_of_ne {ax : Interval} {o d : ℚ} {j : Interval} (hd : d ≠ 0) :
    AxisAlignedBoundingBox.slabStep ax o d j =
      if (if slabHi ax o d < j.max then slabHi ax o d else j.max) ≤
          (if j.min < slabLo ax o d then slabLo ax o d else j.min) then none
      else some ⟨if j.min < slabLo ax o d then slabLo ax o d else j.min,
                 if slabHi ax o d < j.max then slabHi ax o d else j.max⟩ := by
  rw [AxisAlignedBoundingBox.slabStep, if_neg hd]
  rfl

/-- One narrowing step of the slab test cannot empty the running interval
as long as the hit parameter lies inside it, with at most one endpoint
already pinned to the hit parameter; the endpoint provenance (`W1`/`W2`
for carried-over endpoints, `B` for this axis's slab planes) is threaded
through to rule the conflicting combinations out. -/
theorem slabStep_inv {ax : Interval} {o d t : ℚ} {jmin jmax : XQ} {B W1 W2 : Prop}
    (hd : d ≠ 0)
    (hlo : slabLo ax o d ≤ XQ.fin t) (hhi : XQ.fin t ≤ slabHi ax o d)
    (hlohi : slabLo ax o d < slabHi ax o d)
    (hBlo : slabLo ax o d = XQ.fin t → B) (hBhi : slabHi ax o d = XQ.fin t → B)
    (hjmin : jmin ≤ XQ.fin t) (hjmax : XQ.fin t ≤ jmax)
    (hW1 : jmin = XQ.fin t → W1) (hW2 : jmax = XQ.fin t → W2)
    (hne : ¬(jmin = XQ.fin t ∧ jmax = XQ.fin t))
    (hBW2 : ¬(B ∧ W2)) (hW1B : ¬(W1 ∧ B)) :
    AxisAlignedBoundingBox.slabStep ax o d ⟨jmin, jmax⟩ =
      some ⟨if jmin < slabLo ax o d then slabLo ax o d else jmin,
            if slabHi ax o d < jmax then slabHi ax o d else jmax⟩ ∧
    (if jmin < slabLo ax o d then slabLo ax o d else jmin) ≤ XQ.fin t ∧
    XQ.fin t ≤ (if slabHi ax o d < jmax then slabHi ax o d else jmax) ∧
    ((if jmin < slabLo ax o d then slabLo ax o d else jmin) = XQ.fin t → W1 ∨ B) ∧
    ((if slabHi ax o d < jmax then slabHi ax o d else jmax) = XQ.fin t → W2 ∨ B) ∧
    ¬((if jmin < slabLo ax o d then slabLo ax o d else jmin) = XQ.fin t ∧
      (if slabHi ax o d < jmax then slabHi ax o d else jmax) = XQ.fin t) := by
  have h1 : (if jmin < slabLo ax o d then slabLo ax o d else jmin) ≤ XQ.fin t := by
    split_ifs
    · exact hlo
    · exact hjmin
  have h2 : XQ.fin t ≤ (if slabHi ax o d < jmax then slabHi ax o d else jmax) := by
    split_ifs
    · exact hhi
    · exact hjmax
  have h3 : (if jmin < slabLo ax o d then slabLo ax o d else jmin) = XQ.fin t → W1 ∨ B := by
    split_ifs
    · exact fun he => Or.inr (hBlo he)
    · exact fun he => Or.inl (hW1 he)
  have h4 : (if slabHi ax o d < jmax then slabHi ax o d else jmax) = XQ.fin t → W2 ∨ B := by
    split_ifs
    · exact fun he => Or.inr (hBhi he)
    · exact fun he => Or.inl (hW2 he)
  have h5 : ¬((if jmin < slabLo ax o d then slabLo ax o d else jmin) = XQ.fin t ∧
      (if slabHi ax o d < jmax then slabHi ax o d else jmax) = XQ.fin t) := by
    split_ifs with hc1 hc2 hc2
    · rintro ⟨e1, e2⟩
      exact hlohi.ne (e1.trans e2.symm)
    · rintro ⟨e1, e2⟩
      exact hBW2 ⟨hBlo e1, hW2 e2⟩
    · rintro ⟨e1, e2⟩
      exact hW1B ⟨hW1 e1, hBhi e2⟩
    · rintro ⟨e1, e2⟩
      exact hne ⟨e1, e2⟩
  have hnotle : ¬((if slabHi ax o d < jmax then slabHi ax o d else jmax) ≤
      (if jmin < slabLo ax o d then slabLo ax o d else jmin)) := by
    intro hle
    exact h5 ⟨le_antisymm h1 (h2.trans hle), le_antisymm (hle.trans h1) h2⟩
  exact ⟨by rw [slabStep_of_ne (j := ⟨jmin, jmax⟩) hd]; rw [if_neg hnotle], h1, h2, h3, h4, h5⟩

/-! ### C2 development, part 2: sphere-hit characterization and geometry -/

theorem hitT_eq (s : Sphere) (r : Ray) (i : Interval) :
    hitT s r i =
      if sphereDisc s r < 0 then none
      else if i.surrounds (sphereRoot1 s r) then some (sphereRoot1 s r)
      else if i.surrounds (sphereRoot2 s r) then some (sphereRoot2 s r)
      else none := by
  unfold hitT
  rw [sphere_hit_eq]
  split_ifs <;> rfl

theorem hit_eq_hitT_map (s : Sphere) (r : Ray) (i : Interval) :
    s.hit r i = (hitT s r i).map (sphereRecord s r) := by
  rw [sphere_hit_eq, hitT_eq]
  split_ifs <;> rfl

theorem sphereRecord_t (s : Sphere) (r : Ray) (root : ℚ) :
    (sphereRecord s r root).t = root := rfl

theorem hitT_some_cases {s : Sphere} {r : Ray} {i : Interval} {t : ℚ}
    (h : hitT s r i = some t) :
    ¬ sphereDisc s r < 0 ∧ (t = sphereRoot1 s r ∨ t = sphereRoot2 s r) ∧
      i.min < XQ.fin t ∧ XQ.fin t < i.max := by
  rw [hitT_eq] at h
  split_ifs at h with h1 h2 h3
  · obtain rfl := Option.some.inj h
    exact ⟨h1, Or.inl rfl, h2.1, h2.2⟩
  · obtain rfl := Option.some.inj h
    exact ⟨h1, Or.inr rfl, h3.1, h3.2⟩

theorem XQ.subQ_le_self {x : XQ} {q : ℚ} (h : 0 ≤ q) : x.subQ q ≤ x := by
  rcases XQ.cases3 x with rfl | rfl | ⟨m, rfl⟩
  · exact le_refl _
  · exact le_refl _
  · rw [XQ.subQ_fin, XQ.fin_le_fin]
    linarith

theorem XQ.le_addQ_self {x : XQ} {q : ℚ} (h : 0 ≤ q) : x ≤ x.addQ q := by
  rcases XQ.cases3 x with rfl | rfl | ⟨m, rfl⟩
  · exact le_refl _
  · exact le_refl _
  · rw [XQ.addQ_fin, XQ.fin_le_fin]
    linarith

/-- Padding an axis interval only moves its endpoints outward. -/
theorem pad_axis_outward (i : Interval) :
    (if i.size < XQ.fin (1/10000) then i.expand (1/10000) else i).min ≤ i.min ∧
    i.max ≤ (if i.size < XQ.fin (1/10000) then i.expand (1/10000) else i).max := by
  split_ifs
  · exact ⟨XQ.subQ_le_self (by norm_num), XQ.le_addQ_self (by norm_num)⟩
  · exact ⟨le_refl _, le_refl _⟩

theorem pad_axis_outward2 (a b : XQ) :
    (if (Interval.mk a b).size < XQ.fin (1/10000) then (Interval.mk a b).expand (1/10000)
      else Interval.mk a b).min ≤ a ∧
    b ≤ (if (Interval.mk a b).size < XQ.fin (1/10000) then (Interval.mk a b).expand (1/10000)
      else Interval.mk a b).max :=
  pad_axis_outward ⟨a, b⟩

/-- The cached sphere bounding box contains the center-±-radius extremes on
every axis. -/
theorem sphere_box_bounds (s : Sphere) (hr : 0 ≤ s.radius) :
    (s.bounding_box.x.min ≤ XQ.fin (s.center.x - s.radius) ∧
      XQ.fin (s.center.x + s.radius) ≤ s.bounding_box.x.max) ∧
    (s.bounding_box.y.min ≤ XQ.fin (s.center.y - s.radius) ∧
      XQ.fin (s.center.y + s.radius) ≤ s.bounding_box.y.max) ∧
    (s.bounding_box.z.min ≤ XQ.fin (s.center.z - s.radius) ∧
      XQ.fin (s.center.z + s.radius) ≤ s.bounding_box.z.max) := by
  have hord : ∀ c : ℚ, c - s.radius ≤ c + s.radius := fun c => by linarith
  unfold Sphere.bounding_box AxisAlignedBoundingBox.from_points
  simp only [Vec3.sub_def, Vec3.add_def, Vec3.splat, if_pos (hord _)]
  unfold AxisAlignedBoundingBox.new AxisAlignedBoundingBox.pad_to_minimums
  dsimp only
  simp only [Interval.new]
  refine ⟨⟨?_, ?_⟩, ⟨?_, ?_⟩, ⟨?_, ?_⟩⟩ <;>
    first
    | exact (pad_axis_outward2 _ _).1
    | exact (pad_axis_outward2 _ _).2

/-- A point within distance `rad` of `c` has every coordinate within `rad`
of the corresponding coordinate of `c`. -/
theorem comp_bounds_of_dist {p c : Vec3} {rad : ℚ} (hr : 0 ≤ rad)
    (h : (p - c).length_squared ≤ rad * rad) :
    (c.x - rad ≤ p.x ∧ p.x ≤ c.x + rad) ∧ (c.y - rad ≤ p.y ∧ p.y ≤ c.y + rad) ∧
    (c.z - rad ≤ p.z ∧ p.z ≤ c.z + rad) := by
  rw [Vec3.sub_def] at h
  unfold Vec3.length_squared at h
  simp only at h
  refine ⟨⟨?_, ?_⟩, ⟨?_, ?_⟩, ⟨?_, ?_⟩⟩
  · nlinarith [sq_nonneg (p.y - c.y), sq_nonneg (p.z - c.z), sq_nonneg (p.x - c.x + rad)]
  · nlinarith [sq_nonneg (p.y - c.y), sq_nonneg (p.z - c.z), sq_nonneg (p.x - c.x - rad)]
  · nlinarith [sq_nonneg (p.x - c.x), sq_nonneg (p.z - c.z), sq_nonneg (p.y - c.y + rad)]
  · nlinarith [sq_nonneg (p.x - c.x), sq_nonneg (p.z - c.z), sq_nonneg (p.y - c.y - rad)]
  · nlinarith [sq_nonneg (p.x - c.x), sq_nonneg (p.y - c.y), sq_nonneg (p.z - c.z + rad)]
  · nlinarith [sq_nonneg (p.x - c.x), sq_nonneg (p.y - c.y), sq_nonneg (p.z - c.z - rad)]

theorem ray_at_x (r : Ray) (t : ℚ) : (r.at t).x = r.origin.x + r.direction.x * t := rfl

theorem ray_at_y (r : Ray) (t : ℚ) : (r.at t).y = r.origin.y + r.direction.y * t := rfl

theorem ray_at_z (r : Ray) (t : ℚ) : (r.at t).z = r.origin.z + r.direction.z * t := rfl

/-- The hit point at either quadratic root lies inside the closed sphere
ball (inside because `ratSqrt` under-approximates the exact square root;
with an exact root it lies on the surface). -/
theorem sphere_root_dist (s : Sphere) (r : Ray) (t : ℚ)
    (ha : 0 < sphereA r) (hdisc : 0 ≤ sphereDisc s r)
    (ht : t = sphereRoot1 s r ∨ t = sphereRoot2 s r) :
    (r.at t - s.center).length_squared ≤ s.radius * s.radius := by
  have hsq := ratSqrt_sq_le hdisc
  have hane : sphereA r ≠ 0 := ha.ne'
  have key : sphereA r * ((r.at t - s.center).length_squared - s.radius * s.radius)
      = ratSqrt (sphereDisc s r) * ratSqrt (sphereDisc s r) - sphereDisc s r := by
    obtain ⟨⟨ox, oy, oz⟩, ⟨dx, dy, dz⟩⟩ := r
    obtain ⟨⟨cx, cy, cz⟩, rad, mat⟩ := s
    simp only [sphereA, sphereH, sphereCc, sphereDisc, sphereRoot1, sphereRoot2, Ray.at,
      Vec3.length_squared, Vec3.dot, Vec3.sub_def, Vec3.add_def, Vec3.mulq_def] at ht ⊢
    simp only [sphereA, Vec3.length_squared] at hane
    rcases ht with rfl | rfl <;> field_simp <;> ring
  nlinarith [key, hsq, ha]

set_option maxHeartbeats 2000000 in
/-- Conservativeness of the slab test: a box covering a positive-radius
sphere's bounding box passes the slab test for every ray (with nonzero
direction components) that `Sphere::hit` reports a hit for within the
search interval. -/
theorem box_hit_of_sphere_hit {s : Sphere} {r : Ray} {b : AxisAlignedBoundingBox}
    {l u : XQ} {t : ℚ} (hr : 0 < s.radius)
    (hdx : r.direction.x ≠ 0) (hdy : r.direction.y ≠ 0) (hdz : r.direction.z ≠ 0)
    (hcov : b.covers s.bounding_box)
    (hht : hitT s r ⟨l, u⟩ = some t) :
    b.hit r ⟨l, u⟩ = true := by
  obtain ⟨hdisc, hroot, hlt, hut⟩ := hitT_some_cases hht
  have ha : 0 < sphereA r :=
    Vec3.length_squared_pos (fun h0 => hdx (by rw [h0]))
  have hdist := sphere_root_dist s r t ha (not_lt.mp hdisc) hroot
  have hcomp := comp_bounds_of_dist hr.le hdist
  have hsb := sphere_box_bounds s hr.le
  obtain ⟨⟨hcx1, hcx2⟩, ⟨hcy1, hcy2⟩, ⟨hcz1, hcz2⟩⟩ := hcov
  -- per-axis slab position of the hit point
  have hbx1 : b.x.min ≤ XQ.fin ((r.at t).x) :=
    (hcx1.trans hsb.1.1).trans (XQ.fin_le_fin.mpr hcomp.1.1)
  have hbx2 : XQ.fin ((r.at t).x) ≤ b.x.max :=
    ((XQ.fin_le_fin.mpr hcomp.1.2).trans hsb.1.2).trans hcx2
  have hby1 : b.y.min ≤ XQ.fin ((r.at t).y) :=
    (hcy1.trans hsb.2.1.1).trans (XQ.fin_le_fin.mpr hcomp.2.1.1)
  have hby2 : XQ.fin ((r.at t).y) ≤ b.y.max :=
    ((XQ.fin_le_fin.mpr hcomp.2.1.2).trans hsb.2.1.2).trans hcy2
  have hbz1 : b.z.min ≤ XQ.fin ((r.at t).z) :=
    (hcz1.trans hsb.2.2.1).trans (XQ.fin_le_fin.mpr hcomp.2.2.1)
  have hbz2 : XQ.fin ((r.at t).z) ≤ b.z.max :=
    ((XQ.fin_le_fin.mpr hcomp.2.2.2).trans hsb.2.2.2).trans hcz2
  have hbrx := @slab_bracket b.x.min b.x.max _ _ _ _ hdx (ray_at_x r t) hbx1 hbx2
  have hbry := @slab_bracket b.y.min b.y.max _ _ _ _ hdy (ray_at_y r t) hby1 hby2
  have hbrz := @slab_bracket b.z.min b.z.max _ _ _ _ hdz (ray_at_z r t) hbz1 hbz2
  -- strictness of the slab bounds
  have hminmax : ∀ cc : ℚ, XQ.fin (cc - s.radius) < XQ.fin (cc + s.radius) := fun cc =>
    XQ.fin_lt_fin.mpr (by linarith)
  have hsx : b.x.min < b.x.max :=
    ((hcx1.trans hsb.1.1).trans_lt (hminmax _)).trans_le (hsb.1.2.trans hcx2)
  have hsy : b.y.min < b.y.max :=
    ((hcy1.trans hsb.2.1.1).trans_lt (hminmax _)).trans_le (hsb.2.1.2.trans hcy2)
  have hsz : b.z.min < b.z.max :=
    ((hcz1.trans hsb.2.2.1).trans_lt (hminmax _)).trans_le (hsb.2.2.2.trans hcz2)
  have hstx := @slab_strict b.x.min b.x.max r.origin.x _ hdx hsx
  have hsty := @slab_strict b.y.min b.y.max r.origin.y _ hdy hsy
  have hstz := @slab_strict b.z.min b.z.max r.origin.z _ hdz hsz
  -- the boundary propositions: the hit point sits on a sphere-extreme plane
  have hBx : ∀ hb : slabLo b.x r.origin.x r.direction.x = XQ.fin t ∨
      slabHi b.x r.origin.x r.direction.x = XQ.fin t,
      ((r.at t).x - s.center.x) * ((r.at t).x - s.center.x) = s.radius * s.radius := by
    intro hb
    rcases slab_boundary hdx (ray_at_x r t) hb with he | he
    · have h1 : (r.at t).x ≤ s.center.x - s.radius :=
        XQ.fin_le_fin.mp (he ▸ (hcx1.trans hsb.1.1))
      have h2 := hcomp.1.1
      nlinarith
    · have h1 : s.center.x + s.radius ≤ (r.at t).x :=
        XQ.fin_le_fin.mp (he ▸ (hsb.1.2.trans hcx2))
      have h2 := hcomp.1.2
      nlinarith
  have hBy : ∀ hb : slabLo b.y r.origin.y r.direction.y = XQ.fin t ∨
      slabHi b.y r.origin.y r.direction.y = XQ.fin t,
      ((r.at t).y - s.center.y) * ((r.at t).y - s.center.y) = s.radius * s.radius := by
    intro hb
    rcases slab_boundary hdy (ray_at_y r t) hb with he | he
    · have h1 : (r.at t).y ≤ s.center.y - s.radius :=
        XQ.fin_le_fin.mp (he ▸ (hcy1.trans hsb.2.1.1))
      have h2 := hcomp.2.1.1
      nlinarith
    · have h1 : s.center.y + s.radius ≤ (r.at t).y :=
        XQ.fin_le_fin.mp (he ▸ (hsb.2.1.2.trans hcy2))
      have h2 := hcomp.2.1.2
      nlinarith
  have hBz : ∀ hb : slabLo b.z r.origin.z r.direction.z = XQ.fin t ∨
      slabHi b.z r.origin.z r.direction.z = XQ.fin t,
      ((r.at t).z - s.center.z) * ((r.at t).z - s.center.z) = s.radius * s.radius := by
    intro hb
    rcases slab_boundary hdz (ray_at_z r t) hb with he | he
    · have h1 : (r.at t).z ≤ s.center.z - s.radius :=
        XQ.fin_le_fin.mp (he ▸ (hcz1.trans hsb.2.2.1))
      have h2 := hcomp.2.2.1
      nlinarith
    · have h1 : s.center.z + s.radius ≤ (r.at t).z :=
        XQ.fin_le_fin.mp (he ▸ (hsb.2.2.2.trans hcz2))
      have h2 := hcomp.2.2.2
      nlinarith
  -- the hit point cannot sit on extreme planes of two distinct axes at once
  have hdist2 : ((r.at t).x - s.center.x) * ((r.at t).x - s.center.x) +
      ((r.at t).y - s.center.y) * ((r.at t).y - s.center.y) +
      ((r.at t).z - s.center.z) * ((r.at t).z - s.center.z) ≤ s.radius * s.radius := by
    have := hdist
    rw [Vec3.sub_def] at this
    unfold Vec3.length_squared at this
    exact this
  have conflict_xy : ¬(((r.at t).x - s.center.x) * ((r.at t).x - s.center.x)
        = s.radius * s.radius ∧
      ((r.at t).y - s.center.y) * ((r.at t).y - s.center.y) = s.radius * s.radius) := by
    rintro ⟨e1, e2⟩
    nlinarith [sq_nonneg ((r.at t).z - s.center.z), mul_pos hr hr]
  have conflict_xz : ¬(((r.at t).x - s.center.x) * ((r.at t).x - s.center.x)
        = s.radius * s.radius ∧
      ((r.at t).z - s.center.z) * ((r.at t).z - s.center.z) = s.radius * s.radius) := by
    rintro ⟨e1, e2⟩
    nlinarith [sq_nonneg ((r.at t).y - s.center.y), mul_pos hr hr]
  have conflict_yz : ¬(((r.at t).y - s.center.y) * ((r.at t).y - s.center.y)
        = s.radius * s.radius ∧
      ((r.at t).z - s.center.z) * ((r.at t).z - s.center.z) = s.radius * s.radius) := by
    rintro ⟨e1, e2⟩
    nlinarith [sq_nonneg ((r.at t).x - s.center.x), mul_pos hr hr]
  -- chain the three slab steps
  obtain ⟨e1, m1, M1, w11, w12, ne1⟩ :=
    @slabStep_inv b.x r.origin.x r.direction.x t l u _ False False hdx hbrx.1 hbrx.2 hstx
      (fun hb => hBx (Or.inl hb)) (fun hb => hBx (Or.inr hb)) hlt.le hut.le
      (fun h => absurd h hlt.ne) (fun h => absurd h hut.ne')
      (fun hpair => hlt.ne hpair.1) (fun hpair => hpair.2) (fun hpair => hpair.1)
  obtain ⟨e2, m2, M2, w21, w22, ne2⟩ :=
    @slabStep_inv b.y r.origin.y r.direction.y t _ _ _ (False ∨ _) (False ∨ _) hdy hbry.1 hbry.2 hsty
      (fun hb => hBy (Or.inl hb)) (fun hb => hBy (Or.inr hb)) m1 M1 w11 w12 ne1
      (by
        rintro ⟨hby, (f | hbx)⟩
        · exact f
        · exact conflict_xy ⟨hbx, hby⟩)
      (by
        rintro ⟨(f | hbx), hby⟩
        · exact f
        · exact conflict_xy ⟨hbx, hby⟩)
  obtain ⟨e3, m3, M3, w31, w32, ne3⟩ :=
    @slabStep_inv b.z r.origin.z r.direction.z t _ _ _ ((False ∨ _) ∨ _) ((False ∨ _) ∨ _) hdz hbrz.1 hbrz.2
      hstz (fun hb => hBz (Or.inl hb)) (fun hb => hBz (Or.inr hb)) m2 M2 w21 w22 ne2
      (by
        rintro ⟨hbz, ((f | hbx) | hby)⟩
        · exact f
        · exact conflict_xz ⟨hbx, hbz⟩
        · exact conflict_yz ⟨hby, hbz⟩)
      (by
        rintro ⟨((f | hbx) | hby), hbz⟩
        · exact f
        · exact conflict_xz ⟨hbx, hbz⟩
        · exact conflict_yz ⟨hby, hbz⟩)
  rw [AxisAlignedBoundingBox.hit, e1, Option.some_bind, e2, Option.some_bind, e3]
  rfl

/-! ### C2 development, part 3: the linear scan -/

theorem Interval.new_def (a b : XQ) : Interval.new a b = ⟨a, b⟩ := rfl

theorem sphereRoot1_le_sphereRoot2 (s : Sphere) (r : Ray) (ha : 0 < sphereA r) :
    sphereRoot1 s r ≤ sphereRoot2 s r := by
  unfold sphereRoot1 sphereRoot2
  exact (div_le_div_iff_of_pos_right ha).mpr (by linarith [ratSqrt_nonneg (sphereDisc s r)])

/-- Narrowing the upper end of the search interval filters the reported
hit parameter: the hit at the narrowed interval is the hit at the wide
interval provided it clears the new bound, and nothing otherwise. -/
theorem hitT_narrow (s : Sphere) (r : Ray) (ha : 0 < sphereA r) {l u u' : XQ} (hle : u' ≤ u) :
    hitT s r ⟨l, u'⟩ = (hitT s r ⟨l, u⟩).bind
      (fun t => if XQ.fin t < u' then some t else none) := by
  have hq12 : sphereRoot1 s r ≤ sphereRoot2 s r := sphereRoot1_le_sphereRoot2 s r ha
  have hq12f : XQ.fin (sphereRoot1 s r) ≤ XQ.fin (sphereRoot2 s r) := XQ.fin_le_fin.mpr hq12
  rw [hitT_eq, hitT_eq]
  simp only [Interval.surrounds]
  by_cases hdisc : sphereDisc s r < 0
  · rw [if_pos hdisc, if_pos hdisc]
    rfl
  rw [if_neg hdisc, if_neg hdisc]
  by_cases c1 : l < XQ.fin (sphereRoot1 s r) ∧ XQ.fin (sphereRoot1 s r) < u
  · rw [if_pos c1, Option.some_bind]
    by_cases c1' : XQ.fin (sphereRoot1 s r) < u'
    · rw [if_pos c1', if_pos ⟨c1.1, c1'⟩]
    · have hq2 : ¬(l < XQ.fin (sphereRoot2 s r) ∧ XQ.fin (sphereRoot2 s r) < u') := by
        rintro ⟨-, h2⟩
        exact absurd h2 (not_lt.mpr ((not_lt.mp c1').trans hq12f))
      have hq1 : ¬(l < XQ.fin (sphereRoot1 s r) ∧ XQ.fin (sphereRoot1 s r) < u') := by
        rintro ⟨-, h2⟩
        exact c1' h2
      rw [if_neg c1', if_neg hq1, if_neg hq2]
  · rw [if_neg c1]
    have hn1 : ¬(l < XQ.fin (sphereRoot1 s r) ∧ XQ.fin (sphereRoot1 s r) < u') := by
      rintro ⟨h1, h2⟩
      exact c1 ⟨h1, h2.trans_le hle⟩
    by_cases c2 : l < XQ.fin (sphereRoot2 s r) ∧ XQ.fin (sphereRoot2 s r) < u
    · rw [if_pos c2, Option.some_bind, if_neg hn1]
      by_cases c2' : XQ.fin (sphereRoot2 s r) < u'
      · rw [if_pos c2', if_pos ⟨c2.1, c2'⟩]
      · have hq2 : ¬(l < XQ.fin (sphereRoot2 s r) ∧ XQ.fin (sphereRoot2 s r) < u') := by
          rintro ⟨-, h2⟩
          exact c2' h2
        rw [if_neg c2', if_neg hq2]
    · have hn2 : ¬(l < XQ.fin (sphereRoot2 s r) ∧ XQ.fin (sphereRoot2 s r) < u') := by
        rintro ⟨h1, h2⟩
        exact c2 ⟨h1, h2.trans_le hle⟩
      rw [if_neg c2, Option.none_bind, if_neg hn1, if_neg hn2]

theorem hitT_mono_up (s : Sphere) (r : Ray) (ha : 0 < sphereA r) {l u u' : XQ} {t : ℚ}
    (hle : u' ≤ u) (h : hitT s r ⟨l, u'⟩ = some t) : hitT s r ⟨l, u⟩ = some t := by
  rw [hitT_narrow s r ha hle] at h
  cases hh : hitT s r ⟨l, u⟩ with
  | none => rw [hh, Option.none_bind] at h; exact absurd h (by simp)
  | some t2 =>
    rw [hh, Option.some_bind] at h
    split_ifs at h
    exact h

theorem hitT_none_iff (s : Sphere) (r : Ray) (i : Interval) :
    hitT s r i = none ↔ s.hit r i = none := by
  unfold hitT
  exact Option.map_eq_none'

theorem hit_some_hitT {s : Sphere} {r : Ray} {i : Interval} {rec : HitRecord}
    (h : s.hit r i = some rec) :
    hitT s r i = some rec.t ∧ rec = sphereRecord s r rec.t := by
  have hm := hit_eq_hitT_map s r i
  rw [h] at hm
  cases ht : hitT s r i with
  | none => rw [ht] at hm; exact absurd hm (by simp)
  | some t' =>
    rw [ht, Option.map_some'] at hm
    obtain rfl := Option.some.inj hm
    exact ⟨by rw [sphereRecord_t], by rw [sphereRecord_t]⟩

theorem hitLoop_or (r : Ray) (tmin : XQ) (objs : List Sphere) (c : XQ)
    (best : Option HitRecord) :
    hitLoop r tmin objs c best = (hitLoop r tmin objs c none).or best := by
  induction objs generalizing c best with
  | nil => cases best <;> rfl
  | cons s rest ih =>
    cases hs : s.hit r (Interval.new tmin c) with
    | some rec =>
      simp only [hitLoop, hs]
      rw [ih (XQ.fin rec.t) (some rec), Option.or_assoc]
      simp only [Option.or]
    | none =>
      simp only [hitLoop, hs]
      exact ih c best

theorem hitLoop_some_or (r : Ray) (tmin : XQ) (objs : List Sphere) (c : XQ)
    (b : HitRecord) (x : Option HitRecord) :
    (hitLoop r tmin objs c (some b)).or x = hitLoop r tmin objs c (some b) := by
  rw [hitLoop_or]
  cases hitLoop r tmin objs c none <;> rfl

theorem hitLoop_append (r : Ray) (tmin : XQ) (A B : List Sphere) (c : XQ) :
    hitLoop r tmin (A ++ B) c none =
      (match hitLoop r tmin A c none with
       | some b => hitLoop r tmin B (XQ.fin b.t) (some b)
       | none => hitLoop r tmin B c none) := by
  induction A generalizing c with
  | nil => rfl
  | cons s rest ih =>
    cases hs : s.hit r (Interval.new tmin c) with
    | none =>
      simp only [List.cons_append, hitLoop, hs]
      exact ih c
    | some rec =>
      simp only [List.cons_append, hitLoop, hs]
      simp only [List.append_eq]
      rw [hitLoop_or r tmin (rest ++ B) (XQ.fin rec.t) (some rec), ih (XQ.fin rec.t),
        hitLoop_or r tmin rest (XQ.fin rec.t) (some rec)]
      cases hX : hitLoop r tmin rest (XQ.fin rec.t) none with
      | some b2 =>
        show (hitLoop r tmin B (XQ.fin b2.t) (some b2)).or (some rec)
          = hitLoop r tmin B (XQ.fin b2.t) (some b2)
        exact hitLoop_some_or r tmin B (XQ.fin b2.t) b2 (some rec)
      | none =>
        show (hitLoop r tmin B (XQ.fin rec.t) none).or (some rec)
          = hitLoop r tmin B (XQ.fin rec.t) (some rec)
        rw [hitLoop_or r tmin B (XQ.fin rec.t) (some rec)]

theorem hitLoop_none_iff (r : Ray) (l : XQ) (objs : List Sphere) (c : XQ) :
    hitLoop r l objs c none = none ↔ ∀ s ∈ objs, hitT s r ⟨l, c⟩ = none := by
  induction objs generalizing c with
  | nil => simp [hitLoop]
  | cons s rest ih =>
    cases hs : s.hit r (Interval.new l c) with
    | some rec =>
      simp only [hitLoop, hs]
      rw [hitLoop_or]
      constructor
      · intro h
        cases hX : hitLoop r l rest (XQ.fin rec.t) none <;> rw [hX] at h <;> simp at h
      · intro h
        have hnone := h s (List.mem_cons_self s rest)
        rw [hitT_none_iff] at hnone
        rw [Interval.new_def] at hs
        rw [hnone] at hs
        exact absurd hs (by simp)
    | none =>
      simp only [hitLoop, hs]
      rw [ih c]
      constructor
      · intro h s2 hmem
        rcases List.mem_cons.mp hmem with rfl | hmem2
        · rw [hitT_none_iff]
          rw [Interval.new_def] at hs
          exact hs
        · exact h s2 hmem2
      · intro h s2 hmem
        exact h s2 (List.mem_cons_of_mem s hmem)

/-- Characterization of the linear scan: a reported hit is a genuine hit of
a listed sphere, built by `HitRecord::new` for that sphere, and its
parameter is minimal among all listed spheres' hits in the full search
interval. -/
theorem hitLoop_some_spec (r : Ray) (l : XQ) (ha : 0 < sphereA r) :
    ∀ (objs : List Sphere) (c : XQ) (rec : HitRecord),
      hitLoop r l objs c none = some rec →
      XQ.fin rec.t < c ∧
      (∃ s ∈ objs, hitT s r ⟨l, c⟩ = some rec.t ∧ rec = sphereRecord s r rec.t) ∧
      (∀ s ∈ objs, ∀ t2, hitT s r ⟨l, c⟩ = some t2 → rec.t ≤ t2) := by
  intro objs
  induction objs with
  | nil =>
    intro c rec h
    exact absurd h (by simp [hitLoop])
  | cons s rest ih =>
    intro c rec h
    cases hs : s.hit r (Interval.new l c) with
    | none =>
      simp only [hitLoop, hs] at h
      obtain ⟨h1, ⟨s2, hmem, hhit, hform⟩, hmin⟩ := ih c rec h
      have hhead : hitT s r ⟨l, c⟩ = none := by
        rw [hitT_none_iff]
        rw [Interval.new_def] at hs
        exact hs
      refine ⟨h1, ⟨s2, List.mem_cons_of_mem s hmem, hhit, hform⟩, ?_⟩
      intro s3 hmem3 t2 ht2
      rcases List.mem_cons.mp hmem3 with rfl | hmem3'
      · rw [hhead] at ht2
        exact absurd ht2 (by simp)
      · exact hmin s3 hmem3' t2 ht2
    | some rec' =>
      simp only [hitLoop, hs] at h
      obtain ⟨hT', hform'⟩ := hit_some_hitT (show s.hit r ⟨l, c⟩ = some rec' from hs)
      have hb := hitT_some_cases hT'
      have hc' : XQ.fin rec'.t < c := hb.2.2.2
      cases hX : hitLoop r l rest (XQ.fin rec'.t) none with
      | none =>
        rw [hitLoop_or, hX] at h
        have hrr : some rec' = some rec := h
        obtain rfl := Option.some.inj hrr
        have hrestnone := (hitLoop_none_iff r l rest (XQ.fin rec'.t)).mp hX
        refine ⟨hc', ⟨s, List.mem_cons_self s rest, hT', hform'⟩, ?_⟩
        intro s3 hmem3 t2 ht2
        rcases List.mem_cons.mp hmem3 with rfl | hmem3'
        · rw [hT'] at ht2
          exact le_of_eq (Option.some.inj ht2)
        · have hn := hrestnone s3 hmem3'
          rw [hitT_narrow s3 r ha hc'.le, ht2, Option.some_bind] at hn
          split_ifs at hn with hlt2
          exact XQ.fin_le_fin.mp (not_lt.mp hlt2)
      | some rec2 =>
        rw [hitLoop_or, hX] at h
        have hrr : some rec2 = some rec := h
        obtain rfl := Option.some.inj hrr
        obtain ⟨h12, ⟨s2, hmem2, hhit2, hform2⟩, hmin2⟩ := ih (XQ.fin rec'.t) rec2 hX
        refine ⟨h12.trans hc', ⟨s2, List.mem_cons_of_mem s hmem2,
          hitT_mono_up s2 r ha hc'.le hhit2, hform2⟩, ?_⟩
        intro s3 hmem3 t2 ht2
        rcases List.mem_cons.mp hmem3 with rfl | hmem3'
        · rw [hT'] at ht2
          obtain rfl := Option.some.inj ht2
          exact (XQ.fin_lt_fin.mp h12).le
        · have hnar := hitT_narrow s3 r ha hc'.le (l := l)
          rw [ht2, Option.some_bind] at hnar
          split_ifs at hnar with hlt2
          · exact hmin2 s3 hmem3' t2 hnar
          · exact ((XQ.fin_lt_fin.mp h12).trans_le (XQ.fin_le_fin.mp (not_lt.mp hlt2))).le

/-! ### C2 development, part 4: construction facts -/

theorem mem_sortInsert (axis : ℕ) (s x : Sphere) (l : List Sphere) :
    x ∈ sortInsert axis s l ↔ x = s ∨ x ∈ l := by
  induction l with
  | nil => simp [sortInsert]
  | cons y ys ih =>
    unfold sortInsert
    split_ifs
    · simp [List.mem_cons]
    · simp only [List.mem_cons, ih]
      tauto

theorem mem_sortByAxis (axis : ℕ) (x : Sphere) (l : List Sphere) :
    x ∈ sortByAxis axis l ↔ x ∈ l := by
  induction l with
  | nil => simp [sortByAxis]
  | cons s rest ih =>
    unfold sortByAxis
    rw [mem_sortInsert]
    simp only [List.mem_cons, ih]

theorem Interval.inside_merge_left (i j : Interval) : i.inside (i.merge j) :=
  ⟨min_le_left _ _, le_max_left _ _⟩

theorem Interval.inside_merge_right (i j : Interval) : j.inside (i.merge j) :=
  ⟨min_le_right _ _, le_max_right _ _⟩

theorem Interval.inside_trans {a b c : Interval} (h1 : a.inside b) (h2 : b.inside c) :
    a.inside c :=
  ⟨h2.1.trans h1.1, h1.2.trans h2.2⟩

theorem merge_covers_left (b c : AxisAlignedBoundingBox) : (b.merge c).covers b :=
  ⟨Interval.inside_merge_left _ _, Interval.inside_merge_left _ _,
    Interval.inside_merge_left _ _⟩

theorem merge_covers_right (b c : AxisAlignedBoundingBox) : (b.merge c).covers c :=
  ⟨Interval.inside_merge_right _ _, Interval.inside_merge_right _ _,
    Interval.inside_merge_right _ _⟩

theorem covers_trans {a b c : AxisAlignedBoundingBox} (h1 : a.covers b) (h2 : b.covers c) :
    a.covers c :=
  ⟨Interval.inside_trans h2.1 h1.1, Interval.inside_trans h2.2.1 h1.2.1,
    Interval.inside_trans h2.2.2 h1.2.2⟩

theorem foldl_merge_covers_of {x : AxisAlignedBoundingBox} :
    ∀ (l : List Sphere) (b : AxisAlignedBoundingBox), b.covers x →
      (l.foldl (fun acc s2 => acc.merge s2.bounding_box) b).covers x := by
  intro l
  induction l with
  | nil => exact fun b h => h
  | cons y ys ih =>
    intro b h
    exact ih (b.merge y.bounding_box) (covers_trans (merge_covers_left _ _) h)

theorem foldl_merge_covers_mem {s : Sphere} :
    ∀ (l : List Sphere) (b : AxisAlignedBoundingBox), s ∈ l →
      (l.foldl (fun acc s2 => acc.merge s2.bounding_box) b).covers s.bounding_box := by
  intro l
  induction l with
  | nil => exact fun b h => absurd h (List.not_mem_nil s)
  | cons y ys ih =>
    intro b h
    rcases List.mem_cons.mp h with rfl | h2
    · exact foldl_merge_covers_of ys (b.merge s.bounding_box) (merge_covers_right _ _)
    · exact ih (b.merge y.bounding_box) h2

/-- The box `from_objects_mut` computes before splitting covers the cached
bounding box of every listed object. -/
theorem mergedBox_covers {objs : List Sphere} {s : Sphere} (hs : s ∈ objs) :
    (mergedBox objs).covers s.bounding_box :=
  foldl_merge_covers_mem objs AxisAlignedBoundingBox.EMPTY hs

/-- Whenever BVH construction succeeds, the tree holds exactly the input
objects (up to multiplicity: the one-object leaf is shared) and every
interior node's cached box covers each object of its subtree. -/
theorem bvhGo_spec : ∀ (fuel : ℕ) (objs : List Sphere) (t : BvhTree),
    bvhGo fuel objs = some t →
    (∀ x, x ∈ t.flatten ↔ x ∈ objs) ∧ t.Wf := by
  intro fuel
  induction fuel with
  | zero =>
    intro objs t h
    exact absurd h (by simp [bvhGo])
  | succ fuel ih =>
    intro objs t h
    match objs with
    | [] => exact absurd h (by simp [bvhGo])
    | [s] =>
      simp only [bvhGo] at h
      obtain rfl := Option.some.inj h
      refine ⟨fun x => by simp [BvhTree.flatten], ?_⟩
      refine ⟨?_, trivial, trivial⟩
      intro x hx
      have hxs : x = s := by
        simpa [BvhTree.flatten] using hx
      subst hxs
      exact mergedBox_covers (List.mem_singleton_self x)
    | [s1, s2] =>
      simp only [bvhGo] at h
      obtain rfl := Option.some.inj h
      refine ⟨fun x => by simp [BvhTree.flatten], ?_⟩
      refine ⟨?_, trivial, trivial⟩
      intro x hx
      have hxs : x = s1 ∨ x = s2 := by
        simpa [BvhTree.flatten] using hx
      rcases hxs with rfl | rfl
      · exact mergedBox_covers (by simp)
      · exact mergedBox_covers (by simp)
    | s1 :: s2 :: s3 :: rest =>
      rw [show bvhGo (fuel + 1) (s1 :: s2 :: s3 :: rest) =
        (match bvhGo fuel ((sortByAxis (mergedBox (s1 :: s2 :: s3 :: rest)).longest_axis
            (s1 :: s2 :: s3 :: rest)).take
              ((sortByAxis (mergedBox (s1 :: s2 :: s3 :: rest)).longest_axis
                (s1 :: s2 :: s3 :: rest)).length / 2)),
          bvhGo fuel ((sortByAxis (mergedBox (s1 :: s2 :: s3 :: rest)).longest_axis
            (s1 :: s2 :: s3 :: rest)).drop
              ((sortByAxis (mergedBox (s1 :: s2 :: s3 :: rest)).longest_axis
                (s1 :: s2 :: s3 :: rest)).length / 2)) with
        | some l, some r => some (.node (mergedBox (s1 :: s2 :: s3 :: rest)) l r)
        | _, _ => none) from rfl] at h
      cases hL : bvhGo fuel ((sortByAxis (mergedBox (s1 :: s2 :: s3 :: rest)).longest_axis
          (s1 :: s2 :: s3 :: rest)).take
            ((sortByAxis (mergedBox (s1 :: s2 :: s3 :: rest)).longest_axis
              (s1 :: s2 :: s3 :: rest)).length / 2)) with
      | none => rw [hL] at h; exact absurd h (by simp)
      | some lt =>
        cases hR : bvhGo fuel ((sortByAxis (mergedBox (s1 :: s2 :: s3 :: rest)).longest_axis
            (s1 :: s2 :: s3 :: rest)).drop
              ((sortByAxis (mergedBox (s1 :: s2 :: s3 :: rest)).longest_axis
                (s1 :: s2 :: s3 :: rest)).length / 2)) with
        | none => rw [hL, hR] at h; exact absurd h (by simp)
        | some rt =>
          rw [hL, hR] at h
          obtain rfl := Option.some.inj h
          obtain ⟨hml, hwl⟩ := ih _ lt hL
          obtain ⟨hmr, hwr⟩ := ih _ rt hR
          have hmem : ∀ x : Sphere,
              x ∈ lt.flatten ++ rt.flatten ↔ x ∈ s1 :: s2 :: s3 :: rest := by
            intro x
            rw [List.mem_append, hml x, hmr x, ← List.mem_append, List.take_append_drop,
              mem_sortByAxis]
          refine ⟨fun x => by rw [BvhTree.flatten]; exact hmem x, ?_, hwl, hwr⟩
          intro x hx
          exact mergedBox_covers ((hmem x).mp hx)

/-- `BvhNode::from_objects` produces a tree over exactly the input objects
with correctly covering cached boxes. -/
theorem from_objects_spec {objs : List Sphere} {t : BvhTree}
    (h : BvhNode.from_objects objs = some t) :
    (∀ x, x ∈ t.flatten ↔ x ∈ objs) ∧ t.Wf :=
  bvhGo_spec objs.length objs t h

/-! ### C2 development, part 5: tree traversal -/

/-- `BvhNode::hit` on a well-formed tree over positive-radius spheres and
a ray with nonzero direction components computes exactly the linear scan
of the subtree's objects: the box test is conservative
(`box_hit_of_sphere_hit`), and the narrowed right-subtree search combines
with the left result exactly like the running closest-hit state. -/
theorem bvh_hit_eq_scan (r : Ray)
    (hdx : r.direction.x ≠ 0) (hdy : r.direction.y ≠ 0) (hdz : r.direction.z ≠ 0) :
    ∀ (tree : BvhTree), tree.Wf → (∀ s ∈ tree.flatten, 0 < s.radius) →
    ∀ (l u : XQ), tree.hit r ⟨l, u⟩ = hitLoop r l tree.flatten u none := by
  intro tree
  induction tree with
  | obj s =>
    intro _ _ l u
    show s.hit r ⟨l, u⟩ = hitLoop r l [s] u none
    cases hs : s.hit r (Interval.new l u) with
    | some rec =>
      simp only [hitLoop, hs]
      rw [Interval.new_def] at hs
      exact hs
    | none =>
      simp only [hitLoop, hs]
      rw [Interval.new_def] at hs
      exact hs
  | node bbox lt rt ihl ihr =>
    intro hwf hradf l u
    rw [BvhTree.Wf] at hwf
    obtain ⟨hcov, hwl, hwr⟩ := hwf
    simp only [BvhTree.flatten] at hradf ⊢
    have hradl : ∀ s ∈ lt.flatten, 0 < s.radius := fun s hs =>
      hradf s (List.mem_append_left _ hs)
    have hradr : ∀ s ∈ rt.flatten, 0 < s.radius := fun s hs =>
      hradf s (List.mem_append_right _ hs)
    by_cases hbox : bbox.hit r ⟨l, u⟩ = true
    · rw [hitLoop_append, ← ihl hwl hradl l u]
      cases hlrec : lt.hit r ⟨l, u⟩ with
      | some rec =>
        simp only [BvhTree.hit, hbox, if_true, hlrec]
        rw [ihr hwr hradr l (XQ.fin rec.t),
          hitLoop_or r l rt.flatten (XQ.fin rec.t) (some rec)]
      | none =>
        simp only [BvhTree.hit, hbox, if_true, hlrec]
        rw [ihr hwr hradr l u]
        cases hitLoop r l rt.flatten u none <;> rfl
    · have hnone : ∀ s ∈ lt.flatten ++ rt.flatten, hitT s r ⟨l, u⟩ = none := by
        intro s hs
        cases ht : hitT s r ⟨l, u⟩ with
        | none => rfl
        | some t =>
          exact absurd (box_hit_of_sphere_hit (hradf s hs) hdx hdy hdz (hcov s hs) ht) hbox
      simp only [BvhTree.hit, hbox, if_false]
      exact ((hitLoop_none_iff r l (lt.flatten ++ rt.flatten) u).mpr hnone).symm

/-- Two scans over lists with the same members report the same hit
parameter (the reported record may differ when several spheres attain the
minimum, see `bvh_list_equiv_counterexample`). -/
theorem hitLoop_t_eq_of_mem_iff (r : Ray) (l u : XQ) (ha : 0 < sphereA r)
    {A B : List Sphere} (hmem : ∀ x, x ∈ A ↔ x ∈ B) :
    (hitLoop r l A u none).map (fun rec => rec.t) =
      (hitLoop r l B u none).map (fun rec => rec.t) := by
  cases hA : hitLoop r l A u none with
  | none =>
    have hA2 := (hitLoop_none_iff r l A u).mp hA
    have hB : hitLoop r l B u none = none :=
      (hitLoop_none_iff r l B u).mpr (fun s hs => hA2 s ((hmem s).mpr hs))
    rw [hB]
  | some recA =>
    cases hB : hitLoop r l B u none with
    | none =>
      have hB2 := (hitLoop_none_iff r l B u).mp hB
      obtain ⟨-, ⟨sw, hsw, hhit, -⟩, -⟩ := hitLoop_some_spec r l ha A u recA hA
      rw [hB2 sw ((hmem sw).mp hsw)] at hhit
      exact absurd hhit (by simp)
    | some recB =>
      obtain ⟨-, ⟨sa, hsa, hhita, -⟩, hmina⟩ := hitLoop_some_spec r l ha A u recA hA
      obtain ⟨-, ⟨sb, hsb, hhitb, -⟩, hminb⟩ := hitLoop_some_spec r l ha B u recB hB
      have h1 : recA.t ≤ recB.t := hmina sb ((hmem sb).mpr hsb) recB.t hhitb
      have h2 : recB.t ≤ recA.t := hminb sa ((hmem sa).mp hsa) recA.t hhita
      rw [Option.map_some', Option.map_some', le_antisymm h1 h2]

/-- C2: For every ray whose direction components are all nonzero, every
search interval, and every scene of at least three positive-radius spheres
on which BVH construction succeeds, `BvhNode::hit` and `ObjectList::hit`
agree on the reported hit parameter (both miss, or both report the same
`t`), and the full hit records (including the material) coincide whenever
a single sphere attains that closest parameter.  (Without the uniqueness
proviso the records can differ, see `bvh_list_equiv_counterexample`.) -/
theorem bvh_list_equiv_amended (scene : List Sphere) (tree : BvhTree) (r : Ray)
    (i : Interval) (_hlen : 3 ≤ scene.length)
    (hrad : ∀ s ∈ scene, 0 < s.radius)
    (hdx : r.direction.x ≠ 0) (hdy : r.direction.y ≠ 0) (hdz : r.direction.z ≠ 0)
    (htree : BvhNode.from_objects scene = some tree) :
    ((tree.hit r i).map (fun rec => rec.t) =
      (ObjectList.hit scene r i).map (fun rec => rec.t)) ∧
    (∀ recB recL, tree.hit r i = some recB → ObjectList.hit scene r i = some recL →
      (∀ s1 ∈ scene, ∀ s2 ∈ scene,
        hitT s1 r i = some recB.t → hitT s2 r i = some recB.t → s1 = s2) →
      recB = recL) := by
  obtain ⟨hmem, hwf⟩ := from_objects_spec htree
  have ha : 0 < sphereA r := Vec3.length_squared_pos (fun h0 => hdx (by rw [h0]))
  have hradf : ∀ s ∈ tree.flatten, 0 < s.radius := fun s hs => hrad s ((hmem s).mp hs)
  obtain ⟨imin, imax⟩ := i
  have htrav := bvh_hit_eq_scan r hdx hdy hdz tree hwf hradf imin imax
  unfold ObjectList.hit
  rw [htrav]
  constructor
  · exact hitLoop_t_eq_of_mem_iff r imin imax ha hmem
  · intro recB recL hB hL huniq
    obtain ⟨-, ⟨sB, hsB, hhitB, hformB⟩, -⟩ :=
      hitLoop_some_spec r imin ha tree.flatten imax recB hB
    obtain ⟨-, ⟨sL, hsL, hhitL, hformL⟩, -⟩ :=
      hitLoop_some_spec r imin ha scene imax recL hL
    have hteq : recB.t = recL.t := by
      have hmap := hitLoop_t_eq_of_mem_iff r imin imax ha hmem
      rw [hB, hL, Option.map_some', Option.map_some'] at hmap
      exact Option.some.inj hmap
    have hsame : sB = sL := huniq sB ((hmem sB).mp hsB) sL hsL hhitB (by rw [hteq]; exact hhitL)
    rw [hformB, hformL, hsame, hteq]

unseal Rat.mul Rat.add Rat.inv Rat.sub in
theorem bvh_list_equiv_amended_witness :
    ((3 ≤ witScene.length ∧ ∀ s ∈ witScene, 0 < s.radius) ∧
      witRay.direction.x ≠ 0 ∧ witRay.direction.y ≠ 0 ∧ witRay.direction.z ≠ 0 ∧
      BvhNode.from_objects witScene = some witTree) ∧
    ((witTree.hit witRay witI).map (fun rec => rec.t) =
      (ObjectList.hit witScene witRay witI).map (fun rec => rec.t)) ∧
    (∀ recB recL, witTree.hit witRay witI = some recB →
      ObjectList.hit witScene witRay witI = some recL →
      (∀ s1 ∈ witScene, ∀ s2 ∈ witScene,
        hitT s1 witRay witI = some recB.t → hitT s2 witRay witI = some recB.t → s1 = s2) →
      recB = recL) :=
  ⟨⟨⟨by decide, by decide⟩, by decide, by decide, by decide, by decide⟩,
    bvh_list_equiv_amended witScene witTree witRay witI (by decide) (by decide)
      (by decide) (by decide) (by decide) (by decide)⟩

unseal Rat.mul Rat.add Rat.inv Rat.sub in
/-- C2 counterexample: `cexScene` lists three positive-radius spheres whose
interiors are pairwise disjoint (center distances are at least the radius
sums), and on the tangent ray `cexRay` (all direction components nonzero)
the BVH and the linear scan both report the closest parameter `t = 1` but
return hit records of different spheres: the BVH reports the material of
the red sphere, the list the material of the green one. -/
theorem bvh_list_equiv_counterexample :
    (3 ≤ cexScene.length ∧ (∀ s ∈ cexScene, 0 < s.radius) ∧
      cexRay.direction.x ≠ 0 ∧ cexRay.direction.y ≠ 0 ∧ cexRay.direction.z ≠ 0 ∧
      (∀ s1 ∈ cexScene, ∀ s2 ∈ cexScene, s1 = s2 ∨
        (s1.radius + s2.radius) * (s1.radius + s2.radius) ≤
          (s1.center - s2.center).length_squared)) ∧
    BvhNode.from_objects cexScene = some cexTree ∧
    (cexTree.hit cexRay cexI).map (fun rec => rec.t) = some 1 ∧
    (ObjectList.hit cexScene cexRay cexI).map (fun rec => rec.t) = some 1 ∧
    (cexTree.hit cexRay cexI).map (fun rec => rec.material) =
      some (.lambertian ⟨1, 0, 0⟩) ∧
    (ObjectList.hit cexScene cexRay cexI).map (fun rec => rec.material) =
      some (.lambertian ⟨0, 1, 0⟩) := by
  decide

end Raytracer
